import Mathlib

/-!
Movie service: request handlers over a document collection.

A shallow embedding of the five gRPC handlers of `main.go` (`CreateMovie`,
`ReadMovie`, `ListMovies`, `UpdateMovie`, `DeleteMovie`), of the record model of
`models/Movie.go`, and of the part of the MongoDB driver the handlers call:
object identifiers and their hexadecimal rendering, the struct codec with its
`omitempty` tags, and the collection operations `InsertOne`, `FindOne`, `Find`,
`FindOneAndUpdate` and `DeleteOne`.

The collection is explicit state (a list of BSON documents in storage order).
What the outside world contributes to a call (a storage failure, the identifier
the driver generates, whether a stream send goes through) is an explicit
argument of the handler.
-/

/-! ## Object identifiers -/

namespace hex

/-- Lower-case hexadecimal digit of a nibble, the table `0123456789abcdef` of
`encoding/hex`. -/
def hextable (n : Nat) : Char :=
  if n < 10 then Char.ofNat (48 + n) else Char.ofNat (87 + n)

/-- Value of a hexadecimal character, `fromHexChar` of `encoding/hex`: digits and
both letter cases are accepted, everything else is rejected. -/
def fromHexChar (c : Char) : Option Nat :=
  if 48 ≤ c.toNat ∧ c.toNat ≤ 57 then some (c.toNat - 48)
  else if 97 ≤ c.toNat ∧ c.toNat ≤ 102 then some (c.toNat - 87)
  else if 65 ≤ c.toNat ∧ c.toNat ≤ 70 then some (c.toNat - 55)
  else none

/-- Two output characters per input byte, `hex.Encode`. -/
def Encode : List (Fin 256) → List Char
  | [] => []
  | b :: bs => hextable (b.val / 16) :: hextable (b.val % 16) :: Encode bs

/-- Pairs of characters to bytes, `hex.Decode`; an invalid character or a
dangling last character is an error. -/
def Decode : List Char → Option (List (Fin 256))
  | [] => some []
  | [_] => none
  | a :: b :: rest =>
    match fromHexChar a, fromHexChar b with
    | some hi, some lo =>
      match Decode rest with
      | some bs => some (Fin.ofNat (hi * 16 + lo) :: bs)
      | none => none
    | _, _ => none

end hex

namespace primitive

/-- The 12-byte identifier `primitive.ObjectID` (`[12]byte`). -/
structure ObjectID where
  bytes : List (Fin 256)
  size : bytes.length = 12
deriving DecidableEq

/-- The zero identifier `primitive.NilObjectID`. -/
def NilObjectID : ObjectID := ⟨List.replicate 12 0, rfl⟩

/-- Zero test `ObjectID.IsZero`, used by `omitempty`. -/
def ObjectID.IsZero (id : ObjectID) : Bool := decide (id = NilObjectID)

/-- Rendering `ObjectID.Hex`: 24 lower-case hexadecimal characters. -/
def ObjectID.Hex (id : ObjectID) : String := String.mk (hex.Encode id.bytes)

/-- Parsing `primitive.ObjectIDFromHex`: the string must be 24 bytes long and
decode as hexadecimal; `none` stands for the returned error. -/
def ObjectIDFromHex (s : String) : Option ObjectID :=
  if s.utf8ByteSize ≠ 24 then none
  else
    match hex.Decode s.data with
    | none => none
    | some bs => if h : bs.length = 12 then some ⟨bs, h⟩ else none

end primitive

/-! ## BSON values and documents -/

namespace ieee

/-- Number of binary digits of `m`, for `m` below `2 ^ fuel`. -/
def bitLen : Nat → Nat → Nat
  | 0, _ => 0
  | fuel + 1, m => if m = 0 then 0 else bitLen fuel (m / 2) + 1

/-- Odd part and binary exponent: `m * 2 ^ e` with the factors 2 of `m` moved
into the exponent, for `m` below `2 ^ fuel`. -/
def oddPart : Nat → Nat → Int → Nat × Int
  | 0, m, e => (m, e)
  | fuel + 1, m, e => if m % 2 = 0 ∧ m ≠ 0 then oddPart fuel (m / 2) (e + 1) else (m, e)

/-- A floating-point datum by its value: not-a-number (all NaN patterns are one
value here), an infinity, a signed zero, or the nonzero number
`(-1) ^ neg * m * 2 ^ e` with `m` odd, which makes the representation unique. -/
inductive Value where
  | nan
  | inf (neg : Bool)
  | zero (neg : Bool)
  | finite (neg : Bool) (m : Nat) (e : Int)
deriving DecidableEq

/-- The datum exists in the binary format with `p` significand bits, least
exponent `emin` of the last place and values below `2 ^ emax`: binary32 is
`fits 24 (-149) 128`, binary64 is `fits 53 (-1074) 1024`. -/
def Value.fits (p : Nat) (emin emax : Int) : Value → Bool
  | .finite _ m e =>
    decide (m % 2 = 1) && decide (m < 2 ^ p) && decide (emin ≤ e)
      && decide ((bitLen p m : Int) + e ≤ emax)
  | _ => true

/-- The value of an integer. -/
def Value.ofInt (n : Int) : Value :=
  if n = 0 then .zero false
  else .finite (decide (n < 0)) (oddPart 64 n.natAbs 0).1 (oddPart 64 n.natAbs 0).2

end ieee

/-- A Go `float64`, the BSON double. -/
structure Float64 where
  val : ieee.Value
  ok : val.fits 53 (-1074) 1024 = true
deriving DecidableEq

/-- A Go `float32`, the type of the `rating` field: a `float64` that exists in
binary32. The conversion `float64(x)` of a `float32` is the projection
`toFloat64`. -/
structure Float32 where
  toFloat64 : Float64
  ok : toFloat64.val.fits 24 (-149) 128 = true
deriving DecidableEq

/-- The `float32` zero value. -/
def Float32.zero : Float32 := ⟨⟨.zero false, rfl⟩, rfl⟩

/-- Not-a-number test. -/
def Float32.IsNaN (x : Float32) : Bool := decide (x.toFloat64.val = .nan)

/-- The test `v.Float() == 0` of `omitempty`: true of both zeros. -/
def Float32.IsZero (x : Float32) : Bool :=
  match x.toFloat64.val with
  | .zero _ => true
  | _ => false

/-- Decoding of a double into a `float32` field: the driver refuses when
`float64(float32(f)) != f`, that is when `f` is NaN (which differs from itself)
or does not exist in binary32; otherwise the result is `float32(f)`. -/
def Float64.toFloat32? (f : Float64) : Option Float32 :=
  if f.val = .nan then none
  else if h : f.val.fits 24 (-149) 128 = true then some ⟨f, h⟩
  else none

/-- Decoding of a double into an `int32` field: the driver refuses a value that
is not an integer of the `int32` range (NaN and the infinities included). -/
def Float64.toInt32? (f : Float64) : Option Int :=
  match f.val with
  | .zero _ => some 0
  | .finite neg m e =>
    if 0 ≤ e ∧ e ≤ 31 then
      if neg then (if m * 2 ^ e.toNat ≤ 2 ^ 31 then some (-(m * 2 ^ e.toNat : Nat)) else none)
      else (if m * 2 ^ e.toNat < 2 ^ 31 then some (m * 2 ^ e.toNat : Nat) else none)
    else none
  | _ => none

/-- Decoding of a 32-bit integer into a `float32` field: `float64(n)`, then the
same test as for a double. -/
def Float32.ofInt32? (n : Int) : Option Float32 :=
  if h : (ieee.Value.ofInt n).fits 53 (-1074) 1024 = true then
    Float64.toFloat32? ⟨ieee.Value.ofInt n, h⟩
  else none

namespace utf8

/-- The bytes of one character in UTF-8. -/
def EncodeRune (c : Char) : List (Fin 256) :=
  if c.toNat < 0x80 then [Fin.ofNat c.toNat]
  else if c.toNat < 0x800 then
    [Fin.ofNat (0xC0 + c.toNat / 64), Fin.ofNat (0x80 + c.toNat % 64)]
  else if c.toNat < 0x10000 then
    [Fin.ofNat (0xE0 + c.toNat / 4096), Fin.ofNat (0x80 + c.toNat / 64 % 64),
      Fin.ofNat (0x80 + c.toNat % 64)]
  else
    [Fin.ofNat (0xF0 + c.toNat / 262144), Fin.ofNat (0x80 + c.toNat / 4096 % 64),
      Fin.ofNat (0x80 + c.toNat / 64 % 64), Fin.ofNat (0x80 + c.toNat % 64)]

/-- The bytes of a string, `[]byte(s)`. -/
def Bytes (s : String) : List (Fin 256) := s.data.flatMap EncodeRune

end utf8

namespace bson

/-- The kinds of BSON value that occur in the collection: the four kinds this
service writes, and `array` for foreign content that no field of the record
model accepts. -/
inductive Value where
  | objectID (id : primitive.ObjectID)
  | string (s : String)
  | double (x : Float64)
  | int32 (n : Int)
  | array
deriving DecidableEq

/-- An ordered BSON document (`bson.D`): elements in the order they are stored.
The unordered `bson.M` literals of the handlers are written in this form too. -/
abbrev D := List (String × Value)

/-- First element stored under `key`, if any. -/
def D.Lookup (d : D) (key : String) : Option Value :=
  match d with
  | [] => none
  | (k, v) :: rest => if k = key then some v else D.Lookup rest key

end bson

/-! ## Record model (`models/Movie.go`) and wire messages -/

namespace models

/-- The stored record, `models.Movie`. -/
structure Movie where
  ID : primitive.ObjectID
  Title : String
  Description : String
  ReleaseDate : String
  Director : String
  Genre : String
  Rating : Float32
  Runtime : Int
  Poster : String
deriving DecidableEq

/-- The zero value `models.Movie{}`. -/
def Movie.zero : Movie :=
  ⟨primitive.NilObjectID, "", "", "", "", "", Float32.zero, 0, ""⟩

/-- The fields of `models.Movie`, in declaration order. -/
inductive Field where
  | ID | Title | Description | ReleaseDate | Director | Genre | Rating | Runtime | Poster
deriving DecidableEq

/-- The key of each field in the storage encoding: its `bson` struct tag. -/
def Field.tag : Field → String
  | .ID => "_id"
  | .Title => "title"
  | .Description => "description"
  | .ReleaseDate => "releasedate"
  | .Director => "director"
  | .Genre => "genre"
  | .Rating => "rating"
  | .Runtime => "runtime"
  | .Poster => "poster"

/-- All fields, in declaration order. -/
def Field.all : List Field :=
  [.ID, .Title, .Description, .ReleaseDate, .Director, .Genre, .Rating, .Runtime, .Poster]

end models

namespace moviepb

/-- The wire message `moviepb.Movie`. -/
structure Movie where
  Id : String
  Title : String
  Description : String
  ReleaseDate : String
  Director : String
  Genre : String
  Rating : Float32
  Runtime : Int
  Poster : String
deriving DecidableEq

/-- Nil-safe getter `(*Movie).GetId`: the empty string on a nil message. -/
def GetId : Option Movie → String
  | none => ""
  | some m => m.Id

/-- Nil-safe getter `(*Movie).GetTitle`. -/
def GetTitle : Option Movie → String
  | none => ""
  | some m => m.Title

/-- Nil-safe getter `(*Movie).GetDescription`. -/
def GetDescription : Option Movie → String
  | none => ""
  | some m => m.Description

/-- Nil-safe getter `(*Movie).GetReleaseDate`. -/
def GetReleaseDate : Option Movie → String
  | none => ""
  | some m => m.ReleaseDate

/-- Nil-safe getter `(*Movie).GetDirector`. -/
def GetDirector : Option Movie → String
  | none => ""
  | some m => m.Director

/-- Nil-safe getter `(*Movie).GetGenre`. -/
def GetGenre : Option Movie → String
  | none => ""
  | some m => m.Genre

/-- Nil-safe getter `(*Movie).GetRating`. -/
def GetRating : Option Movie → Float32
  | none => Float32.zero
  | some m => m.Rating

/-- Nil-safe getter `(*Movie).GetRuntime`. -/
def GetRuntime : Option Movie → Int
  | none => 0
  | some m => m.Runtime

/-- Nil-safe getter `(*Movie).GetPoster`. -/
def GetPoster : Option Movie → String
  | none => ""
  | some m => m.Poster

/-- Request of `CreateMovie`; the payload pointer may be nil. -/
structure CreateMovieReq where
  Movie : Option Movie

/-- Response of `CreateMovie`. -/
structure CreateMovieRes where
  Movie : Movie
deriving DecidableEq

/-- Request of `ReadMovie`. -/
structure ReadMovieReq where
  Id : String

/-- Response of `ReadMovie`. -/
structure ReadMovieRes where
  Movie : Movie
deriving DecidableEq

/-- Request of `UpdateMovie`; the payload pointer may be nil. -/
structure UpdateMovieReq where
  Movie : Option Movie

/-- Response of `UpdateMovie`. -/
structure UpdateMovieRes where
  Movie : Movie
deriving DecidableEq

/-- Request of `DeleteMovie`. -/
structure DeleteMovieReq where
  Id : String

/-- Response of `DeleteMovie`. -/
structure DeleteMovieRes where
  Success : Bool
deriving DecidableEq

/-- One streamed message of `ListMovies`. -/
structure ListMoviesRes where
  Movie : Movie
deriving DecidableEq

end moviepb

/-! ## Struct codec of the driver -/

namespace strings

/-- Lower-casing of one rune, `unicode.ToLower`, as far as the result can be an
ASCII character: the ASCII capitals, and the two other runes whose lower case is
an ASCII letter (U+0130 and U+212A). Every other rune is left alone; its real
lower case is not ASCII either, so it matches no struct tag with or without the
mapping. -/
def lowerRune (c : Char) : Char :=
  if c.toNat = 0x130 then 'i'
  else if c.toNat = 0x212A then 'k'
  else if 65 ≤ c.toNat ∧ c.toNat ≤ 90 then Char.ofNat (c.toNat + 32)
  else c

/-- Lower-casing `strings.ToLower`. -/
def ToLower (s : String) : String := String.mk (s.data.map lowerRune)

end strings

namespace bsoncodec

open models

/-- Lookup in the field map of the struct description (`sd.fm[name]`), keyed by
the struct tags. -/
def fm (name : String) : Option Field :=
  Field.all.find? (fun f => decide (f.tag = name))

/-- Field an element name is decoded into by `StructCodec.DecodeValue`: the
field map is tried with the name as stored and, when that finds nothing, with
the name in lower case (`fd, exists := sd.fm[name]`, then
`sd.fm[strings.ToLower(name)]` in `bsoncodec/struct_codec.go`). An element
stored as `releaseDate` is therefore decoded into the field tagged
`releasedate`. -/
def fieldFor (name : String) : Option Field :=
  match fm name with
  | some f => some f
  | none => fm (strings.ToLower name)

/-- Decoding into a `primitive.ObjectID` (`objectIDDecodeType`): an object
identifier as it is; a string when it parses as 24 hexadecimal characters or,
failing that, when it is 12 bytes long, which are then the identifier. `none`
is the decode error. -/
def decodeObjectID : bson.Value → Option primitive.ObjectID
  | .objectID id => some id
  | .string s =>
    match primitive.ObjectIDFromHex s with
    | some id => some id
    | none => if h : (utf8.Bytes s).length = 12 then some ⟨utf8.Bytes s, h⟩ else none
  | _ => none

/-- Decoding into a `string` (`StringCodec`): a string as it is, an object
identifier as its hexadecimal rendering (`DecodeObjectIDAsHex`, on by default). -/
def decodeString : bson.Value → Option String
  | .string s => some s
  | .objectID id => some id.Hex
  | _ => none

/-- Decoding into a `float32` (`floatDecodeType`): a double or a 32-bit integer
that converts without loss. -/
def decodeFloat32 : bson.Value → Option Float32
  | .double f => f.toFloat32?
  | .int32 n => Float32.ofInt32? n
  | _ => none

/-- Decoding into an `int32` (`intDecodeType`): a 32-bit integer as it is, a
double that is an integer of the range. -/
def decodeInt32 : bson.Value → Option Int
  | .int32 n => some n
  | .double f => f.toInt32?
  | _ => none

/-- Decoding of one value into one field of the destination struct, by the
decoder of the field's Go type; `none` is the decode error. -/
def decodeField (data : Movie) (f : Field) (v : bson.Value) : Option Movie :=
  match f with
  | .ID => (decodeObjectID v).map (fun id => { data with ID := id })
  | .Title => (decodeString v).map (fun s => { data with Title := s })
  | .Description => (decodeString v).map (fun s => { data with Description := s })
  | .ReleaseDate => (decodeString v).map (fun s => { data with ReleaseDate := s })
  | .Director => (decodeString v).map (fun s => { data with Director := s })
  | .Genre => (decodeString v).map (fun s => { data with Genre := s })
  | .Rating => (decodeFloat32 v).map (fun x => { data with Rating := x })
  | .Runtime => (decodeInt32 v).map (fun n => { data with Runtime := n })
  | .Poster => (decodeString v).map (fun s => { data with Poster := s })

/-- Decoding of a document into an existing struct, `StructCodec.DecodeValue`:
the elements are read in order, an element whose name matches no field is
skipped, and the destination is not cleared first (`DecodeZeroStruct` is off by
default), so a field the document does not mention keeps the value it had and
of two elements decoded into one field the later one stays. -/
def DecodeValue (data : Movie) : bson.D → Option Movie
  | [] => some data
  | (name, v) :: rest =>
    match fieldFor name with
    | none => DecodeValue data rest
    | some f =>
      match decodeField data f v with
      | none => none
      | some data' => DecodeValue data' rest

/-- Encoding of the record, `StructCodec.EncodeValue`: fields in declaration
order under their tags, each one left out when it is empty (`omitempty`). -/
def EncodeValue (data : Movie) : bson.D :=
  (if data.ID.IsZero then [] else [("_id", bson.Value.objectID data.ID)])
  ++ (if data.Title = "" then [] else [("title", bson.Value.string data.Title)])
  ++ (if data.Description = "" then [] else [("description", bson.Value.string data.Description)])
  ++ (if data.ReleaseDate = "" then [] else [("releasedate", bson.Value.string data.ReleaseDate)])
  ++ (if data.Director = "" then [] else [("director", bson.Value.string data.Director)])
  ++ (if data.Genre = "" then [] else [("genre", bson.Value.string data.Genre)])
  ++ (if data.Rating.IsZero then []
      else [("rating", bson.Value.double data.Rating.toFloat64)])
  ++ (if data.Runtime = 0 then [] else [("runtime", bson.Value.int32 data.Runtime)])
  ++ (if data.Poster = "" then [] else [("poster", bson.Value.string data.Poster)])

end bsoncodec

/-! ## Collection operations of the driver -/

namespace mongo

open primitive

/-- Errors of the storage side. The handlers only test them for nil. -/
inductive Error where
  | ErrNoDocuments
  | DuplicateKey
  | Network
  | DecodeError
deriving DecidableEq

/-- The collection `moviedb`: its documents in storage order. -/
abbrev Collection := List bson.D

/-- The filter `bson.M{"_id": oid}` applied to one document. -/
def matchID (oid : ObjectID) (d : bson.D) : Bool :=
  decide (d.Lookup "_id" = some (bson.Value.objectID oid))

/-- One field of a `$set`: an existing element is overwritten where it stands,
a new one is appended. -/
def setField (d : bson.D) (key : String) (v : bson.Value) : bson.D :=
  if d.any (fun e => decide (e.1 = key)) then
    d.map (fun e => if e.1 = key then (key, v) else e)
  else d ++ [(key, v)]

/-- The update `{"$set": update}` applied to one document, field by field. -/
def applySet (d : bson.D) (update : bson.D) : bson.D :=
  update.foldl (fun acc e => setField acc e.1 e.2) d

/-- Insertion `Collection.InsertOne` of a record. The document is the encoding
of the record; when it has no `_id` the driver puts the freshly generated
`newID` in front. A storage failure (`fault`) or an `_id` that is already in
the collection (unique index) is an error and stores nothing. The result is the
inserted identifier and the collection afterwards. -/
def InsertOne (c : Collection) (fault : Bool) (newID : ObjectID) (data : models.Movie) :
    Except Error ObjectID × Collection :=
  if fault then (.error .Network, c)
  else
    let id := if data.ID.IsZero then newID else data.ID
    let doc :=
      if data.ID.IsZero then ("_id", bson.Value.objectID newID) :: bsoncodec.EncodeValue data
      else bsoncodec.EncodeValue data
    if c.any (matchID id) then (.error .DuplicateKey, c)
    else (.ok id, c ++ [doc])

/-- Query `Collection.FindOne` with the filter `{"_id": oid}`: the
`SingleResult`, holding the first matching document or the error. -/
def FindOne (c : Collection) (fault : Bool) (oid : ObjectID) : Except Error bson.D :=
  if fault then .error .Network
  else
    match c.find? (matchID oid) with
    | none => .error .ErrNoDocuments
    | some d => .ok d

/-- Decoding `SingleResult.Decode` into `data`: the error of the query if there
is one, else the decoding of the document. -/
def SingleResult.Decode (r : Except Error bson.D) (data : models.Movie) :
    Except Error models.Movie :=
  match r with
  | .error e => .error e
  | .ok d =>
    match bsoncodec.DecodeValue data d with
    | none => .error .DecodeError
    | some data' => .ok data'

/-- First matching document replaced by its update; `none` when nothing
matches. The result is the document after the update and the new collection. -/
def updateFirst (oid : ObjectID) (update : bson.D) : Collection → Option (bson.D × Collection)
  | [] => none
  | d :: ds =>
    if matchID oid d then some (applySet d update, applySet d update :: ds)
    else
      match updateFirst oid update ds with
      | none => none
      | some (r, ds') => some (r, d :: ds')

/-- Operation `Collection.FindOneAndUpdate` with the filter `{"_id": oid}`, the
update `{"$set": update}` and the option `ReturnDocument = After`: the
`SingleResult` holds the document as it is after the update. -/
def FindOneAndUpdate (c : Collection) (fault : Bool) (oid : ObjectID) (update : bson.D) :
    Except Error bson.D × Collection :=
  if fault then (.error .Network, c)
  else
    match updateFirst oid update c with
    | none => (.error .ErrNoDocuments, c)
    | some (r, c') => (.ok r, c')

/-- Operation `Collection.DeleteOne` with the filter `{"_id": oid}`: the first
matching document is removed; the result is the `DeletedCount` (0 or 1). A
filter that matches nothing is not an error. -/
def DeleteOne (c : Collection) (fault : Bool) (oid : ObjectID) :
    Except Error Nat × Collection :=
  if fault then (.error .Network, c)
  else (.ok (if c.any (matchID oid) then 1 else 0), c.eraseP (matchID oid))

/-- What a cursor delivers: the documents `Next` steps through, and whether the
iteration ended on an error (`Cursor.Err`). -/
structure Cursor where
  docs : List bson.D
  err : Bool

/-- Query `Collection.Find` with the empty filter. With `fault` the query itself
fails. With `failAt = some k` the cursor breaks after `k` documents. -/
def Find (c : Collection) (fault : Bool) (failAt : Option Nat) : Except Error Cursor :=
  if fault then .error .Network
  else
    match failAt with
    | none => .ok ⟨c, false⟩
    | some k => .ok ⟨c.take k, true⟩

end mongo

/-! ## Request handlers (`main.go`) -/

/-- The gRPC status codes the handlers return. -/
inductive codes where
  | InvalidArgument
  | NotFound
  | Internal
  | Unavailable
deriving DecidableEq

open primitive in
/-- Handler `CreateMovie`. `fault` and `newID` are what the storage side
contributes to the insert. The result is the response or the status code, and
the collection afterwards. -/
def CreateMovie (moviedb : mongo.Collection) (fault : Bool) (newID : ObjectID)
    (req : moviepb.CreateMovieReq) : Except codes moviepb.CreateMovieRes × mongo.Collection :=
  match req.Movie with
  | none => (.error .InvalidArgument, moviedb)
  | some movie =>
    let data : models.Movie :=
      { ID := NilObjectID
        Title := movie.Title
        Description := movie.Description
        ReleaseDate := movie.ReleaseDate
        Director := movie.Director
        Genre := movie.Genre
        Rating := movie.Rating
        Runtime := movie.Runtime
        Poster := movie.Poster }
    match mongo.InsertOne moviedb fault newID data with
    | (.error _, db) => (.error .Internal, db)
    | (.ok oid, db) => (.ok ⟨{ movie with Id := oid.Hex }⟩, db)

open primitive in
/-- Handler `ReadMovie`. -/
def ReadMovie (moviedb : mongo.Collection) (fault : Bool) (req : moviepb.ReadMovieReq) :
    Except codes moviepb.ReadMovieRes :=
  match ObjectIDFromHex req.Id with
  | none => .error .InvalidArgument
  | some oid =>
    let result := mongo.FindOne moviedb fault oid
    match mongo.SingleResult.Decode result models.Movie.zero with
    | .error _ => .error .NotFound
    | .ok data =>
      .ok ⟨{ Id := oid.Hex
             Title := data.Title
             Description := data.Description
             ReleaseDate := data.ReleaseDate
             Director := data.Director
             Genre := data.Genre
             Rating := data.Rating
             Runtime := data.Runtime
             Poster := data.Poster }⟩

/-- The message `ListMovies` builds from the decode buffer. -/
def listItem (data : models.Movie) : moviepb.ListMoviesRes :=
  ⟨{ Id := data.ID.Hex
     Title := data.Title
     Description := data.Description
     ReleaseDate := data.ReleaseDate
     Director := data.Director
     Genre := data.Genre
     Rating := data.Rating
     Runtime := data.Runtime
     Poster := data.Poster }⟩

/-- The loop of `ListMovies` over the documents of the cursor. `data` is the one
decode buffer, `i` the number of messages handed to the stream so far, `send i`
tells whether the send number `i` goes through. The result is the status the
loop returns with, if it does, and the messages handed to `stream.Send`, each
with the outcome of its send, which the loop does not look at. -/
def ListMovies.loop (send : Nat → Bool) (data : models.Movie) (i : Nat) :
    List bson.D → Option codes × List (moviepb.ListMoviesRes × Bool)
  | [] => (none, [])
  | d :: rest =>
    match bsoncodec.DecodeValue data d with
    | none => (some .Unavailable, [])
    | some data' =>
      let r := ListMovies.loop send data' (i + 1) rest
      (r.1, (listItem data', send i) :: r.2)

/-- Handler `ListMovies`. `fault` and `failAt` are the behaviour of the query and
of its cursor, `send` that of the stream. The result is the returned status
(`ok` for nil) and the messages handed to the stream with their outcomes. -/
def ListMovies (moviedb : mongo.Collection) (fault : Bool) (failAt : Option Nat)
    (send : Nat → Bool) : Except codes Unit × List (moviepb.ListMoviesRes × Bool) :=
  match mongo.Find moviedb fault failAt with
  | .error _ => (.error .Internal, [])
  | .ok cursor =>
    match ListMovies.loop send models.Movie.zero 0 cursor.docs with
    | (some code, sent) => (.error code, sent)
    | (none, sent) =>
      if cursor.err then (.error .Internal, sent)
      else (.ok (), sent)

/-- The `bson.M` literal `update` of `UpdateMovie`. A Go map has no order; the
fields are listed in the order of their names, in which the server applies
them. -/
def UpdateMovie.update (movie : Option moviepb.Movie) : bson.D :=
  [ ("description", bson.Value.string (moviepb.GetDescription movie)),
    ("director", bson.Value.string (moviepb.GetDirector movie)),
    ("genre", bson.Value.string (moviepb.GetGenre movie)),
    ("poster", bson.Value.string (moviepb.GetPoster movie)),
    ("rating", bson.Value.double (moviepb.GetRating movie).toFloat64),
    ("releaseDate", bson.Value.string (moviepb.GetReleaseDate movie)),
    ("runtime", bson.Value.int32 (moviepb.GetRuntime movie)),
    ("title", bson.Value.string (moviepb.GetTitle movie)) ]

open primitive in
/-- Handler `UpdateMovie`. -/
def UpdateMovie (moviedb : mongo.Collection) (fault : Bool) (req : moviepb.UpdateMovieReq) :
    Except codes moviepb.UpdateMovieRes × mongo.Collection :=
  let movie := req.Movie
  match ObjectIDFromHex (moviepb.GetId movie) with
  | none => (.error .InvalidArgument, moviedb)
  | some oid =>
    match mongo.FindOneAndUpdate moviedb fault oid (UpdateMovie.update movie) with
    | (result, db) =>
      match mongo.SingleResult.Decode result models.Movie.zero with
      | .error _ => (.error .NotFound, db)
      | .ok decoded =>
        (.ok ⟨{ Id := decoded.ID.Hex
                Title := decoded.Title
                Description := decoded.Description
                ReleaseDate := decoded.ReleaseDate
                Director := decoded.Director
                Genre := decoded.Genre
                Rating := decoded.Rating
                Runtime := decoded.Runtime
                Poster := decoded.Poster }⟩, db)

open primitive in
/-- Handler `DeleteMovie`. -/
def DeleteMovie (moviedb : mongo.Collection) (fault : Bool) (req : moviepb.DeleteMovieReq) :
    Except codes moviepb.DeleteMovieRes × mongo.Collection :=
  match ObjectIDFromHex req.Id with
  | none => (.error .InvalidArgument, moviedb)
  | some oid =>
    match mongo.DeleteOne moviedb fault oid with
    | (.error _, db) => (.error .NotFound, db)
    | (.ok _, db) => (.ok ⟨true⟩, db)

/-! ## Shape of the stored documents -/

namespace mongo

/-- The `_id` values of the stored documents, in storage order. The server keeps
them pairwise different (unique index on `_id`). -/
def ids (c : Collection) : List (Option bson.Value) := c.map (fun d => d.Lookup "_id")

/-- The identifier of a stored document, when its `_id` is an object identifier. -/
def docID (d : bson.D) : Option primitive.ObjectID :=
  match d.Lookup "_id" with
  | some (.objectID id) => some id
  | _ => none

end mongo

namespace models

/-- The value of one field of the record, as a BSON value of the field's kind. -/
def Movie.get (data : Movie) : Field → bson.Value
  | .ID => .objectID data.ID
  | .Title => .string data.Title
  | .Description => .string data.Description
  | .ReleaseDate => .string data.ReleaseDate
  | .Director => .string data.Director
  | .Genre => .string data.Genre
  | .Rating => .double data.Rating.toFloat64
  | .Runtime => .int32 data.Runtime
  | .Poster => .string data.Poster

end models

/-- An element as the handlers write it next to `_id`: one of the names of
`models.Movie` (written by `CreateMovie`) or of the `update` literal (written by
`UpdateMovie`), with a value of the kind of the Go field behind it. -/
def serviceElem (e : String × bson.Value) : Bool :=
  match e.2 with
  | .string _ =>
    decide (e.1 ∈ ["title", "description", "releasedate", "releaseDate", "director", "genre",
      "poster"])
  | .double _ => decide (e.1 = "rating")
  | .int32 _ => decide (e.1 = "runtime")
  | _ => false

/-- An element the decoder does not refuse for its value: every element but a
double that is NaN or does not exist in binary32. The service writes such a
double only from a payload whose rating is NaN. -/
def decodableElem (e : String × bson.Value) : Bool :=
  match e.2 with
  | .double f => f.toFloat32?.isSome
  | _ => true

/-- No `releasedate` element stands behind a `releaseDate` element: the first is
only written when the document is created, the second only by a later update. -/
def releaseOrder : List String → Bool
  | [] => true
  | k :: ks => (decide (k ≠ "releaseDate") || !ks.contains "releasedate") && releaseOrder ks

/-- A document as this service stores it: the object identifier under `_id` in
front, then elements written by `CreateMovie` and `UpdateMovie`. -/
def serviceDoc : bson.D → Bool
  | (k, .objectID _) :: rest =>
    decide (k = "_id") && rest.all serviceElem && releaseOrder (rest.map Prod.fst)
  | _ => false

/-- A service document that decodes: none of its doubles is refused. -/
def readableDoc (d : bson.D) : Bool := serviceDoc d && d.all decodableElem

/-! ## Sample data -/

namespace Sample

/-- Identifier `010101010101010101010101`. -/
def oidA : primitive.ObjectID := ⟨List.replicate 12 1, rfl⟩

/-- Identifier `abababababababababababab`. -/
def oidB : primitive.ObjectID := ⟨List.replicate 12 171, rfl⟩

/-- The rating 4.5. -/
def fourAndHalf : Float32 := ⟨⟨.finite false 9 (-1), by decide⟩, by decide⟩

/-- The rating NaN. -/
def notANumber : Float32 := ⟨⟨.nan, rfl⟩, rfl⟩

/-- A payload with every field set. -/
def dune : moviepb.Movie :=
  ⟨"", "Dune", "Sand and spice", "2021", "Villeneuve", "scifi", fourAndHalf, 155, "dune.png"⟩

/-- A payload with only the title set. -/
def alien : moviepb.Movie := ⟨"", "Alien", "", "", "", "", Float32.zero, 0, ""⟩

/-- A payload with a title and the rating NaN. -/
def solaris : moviepb.Movie := ⟨"", "Solaris", "", "", "", "", notANumber, 0, ""⟩

/-- The document `CreateMovie` stores for `dune` under `oidA`. -/
def docDune : bson.D :=
  [ ("_id", .objectID oidA), ("title", .string "Dune"),
    ("description", .string "Sand and spice"), ("releasedate", .string "2021"),
    ("director", .string "Villeneuve"), ("genre", .string "scifi"),
    ("rating", .double fourAndHalf.toFloat64),
    ("runtime", .int32 155), ("poster", .string "dune.png") ]

/-- The document `CreateMovie` stores for `alien` under `oidB`. -/
def docAlien : bson.D := [("_id", .objectID oidB), ("title", .string "Alien")]

/-- A collection holding the two. -/
def movies : mongo.Collection := [docDune, docAlien]

end Sample

/-! ## Identifiers: rendering and parsing -/

namespace hex

theorem fromHexChar_hextable (n : Nat) (h : n < 16) : fromHexChar (hextable n) = some n := by
  interval_cases n <;> decide

theorem utf8Size_hextable (n : Nat) (h : n < 16) : (hextable n).utf8Size = 1 := by
  interval_cases n <;> decide

theorem Decode_Encode (bs : List (Fin 256)) : Decode (Encode bs) = some bs := by
  induction bs with
  | nil => rfl
  | cons b bs ih =>
    have h1 : b.val / 16 < 16 := by omega
    have h2 : b.val % 16 < 16 := by omega
    have h3 : (Fin.ofNat (b.val / 16 * 16 + b.val % 16) : Fin 256) = b := by
      apply Fin.ext
      simp only [Fin.ofNat, Fin.val_mk]
      omega
    simp only [Encode, Decode, fromHexChar_hextable _ h1, fromHexChar_hextable _ h2, ih, h3]

theorem utf8ByteSize_Encode (bs : List (Fin 256)) :
    String.utf8ByteSize.go (Encode bs) = 2 * bs.length := by
  induction bs with
  | nil => rfl
  | cons b bs ih =>
    have h1 : b.val / 16 < 16 := by omega
    have h2 : b.val % 16 < 16 := by omega
    simp only [Encode, String.utf8ByteSize.go, ih, utf8Size_hextable _ h1,
      utf8Size_hextable _ h2, List.length_cons]
    omega

theorem Decode_eq_none_of_mem (c : Char) (hbad : fromHexChar c = none) :
    ∀ l : List Char, c ∈ l → Decode l = none
  | [], hc => by simp at hc
  | [_], _ => rfl
  | a :: b :: rest, hc => by
    unfold Decode
    rcases List.mem_cons.1 hc with h | h
    · subst h; simp [hbad]
    · rcases List.mem_cons.1 h with h | h
      · subst h
        cases fromHexChar a <;> simp [hbad]
      · have ih := Decode_eq_none_of_mem c hbad rest h
        cases fromHexChar a <;> cases fromHexChar b <;> simp [ih]

end hex

namespace primitive

theorem ObjectIDFromHex_Hex (id : ObjectID) : ObjectIDFromHex id.Hex = some id := by
  have hsize : id.Hex.utf8ByteSize = 24 := by
    show String.utf8ByteSize.go (hex.Encode id.bytes) = 24
    rw [hex.utf8ByteSize_Encode, id.size]
  unfold ObjectIDFromHex
  rw [if_neg (by simp [hsize])]
  show (match hex.Decode (hex.Encode id.bytes) with
    | none => none
    | some bs => if h : bs.length = 12 then some ⟨bs, h⟩ else none) = some id
  rw [hex.Decode_Encode]
  simp [id.size]

theorem ObjectIDFromHex_eq_none (s : String)
    (h : s.utf8ByteSize ≠ 24 ∨ ∃ c ∈ s.data, hex.fromHexChar c = none) :
    ObjectIDFromHex s = none := by
  unfold ObjectIDFromHex
  rcases h with h | ⟨c, hc, hbad⟩
  · rw [if_pos h]
  · split
    · rfl
    · rw [hex.Decode_eq_none_of_mem c hbad s.data hc]

end primitive

namespace bson

theorem D.Lookup_cons_self (k : String) (v : Value) (rest : D) :
    D.Lookup ((k, v) :: rest) k = some v := by
  simp [D.Lookup]

end bson

namespace bsoncodec

open models

theorem DecodeValue_append (l1 l2 : bson.D) :
    ∀ data, DecodeValue data (l1 ++ l2) = (DecodeValue data l1).bind (fun d => DecodeValue d l2) := by
  induction l1 with
  | nil => intro data; rfl
  | cons e l1 ih =>
    intro data
    obtain ⟨name, v⟩ := e
    cases hf : fieldFor name with
    | none => simpa only [List.cons_append, DecodeValue, hf] using ih data
    | some f =>
      cases hd : decodeField data f v with
      | none => simp only [List.cons_append, DecodeValue, hf, hd, Option.bind]
      | some data' => simpa only [List.cons_append, DecodeValue, hf, hd] using ih data'

theorem DecodeValue_omitempty (c : Prop) [Decidable c] (k : String) (v : bson.Value)
    (f : Field) (hf : fieldFor k = some f) (d d' : Movie) (hempty : c → d' = d)
    (hset : ¬c → decodeField d f v = some d') :
    DecodeValue d (if c then [] else [(k, v)]) = some d' := by
  by_cases hc : c
  · rw [if_pos hc, hempty hc]; rfl
  · rw [if_neg hc]
    simp only [DecodeValue, hf, hset hc]

theorem toFloat32?_toFloat64 (x : Float32) (h : x.IsNaN = false) :
    x.toFloat64.toFloat32? = some x := by
  have hn : ¬ x.toFloat64.val = ieee.Value.nan := by simpa [Float32.IsNaN] using h
  simp only [Float64.toFloat32?, hn, if_false, x.ok, dite_true]

theorem toFloat32?_eq_some (f : Float64) (x : Float32) (h : f.toFloat32? = some x) :
    x.toFloat64 = f := by
  unfold Float64.toFloat32? at h
  split at h
  · simp at h
  · split at h
    · simp only [Option.some.injEq] at h
      rw [← h]
    · simp at h

theorem Float32_eq_of_toFloat64 (x y : Float32) (h : x.toFloat64 = y.toFloat64) : x = y := by
  obtain ⟨fx, hx⟩ := x
  obtain ⟨fy, hy⟩ := y
  simp only at h
  subst h
  rfl

theorem IsZero_eq_zero (x : Float32) (h : x.IsZero = true) :
    x = Float32.zero ∨ x = ⟨⟨.zero true, rfl⟩, rfl⟩ := by
  obtain ⟨⟨v, h64⟩, h32⟩ := x
  cases v with
  | zero neg => cases neg <;> simp [Float32.zero]
  | nan => simp [Float32.IsZero] at h
  | inf neg => simp [Float32.IsZero] at h
  | finite neg m e => simp [Float32.IsZero] at h

/-- Decoding the encoding of a record into a fresh struct gives the record back,
unless its rating is NaN; a rating of negative zero, omitted like zero, comes
back as zero. -/
theorem DecodeValue_EncodeValue (data : Movie) (id : primitive.ObjectID)
    (h : data.ID = primitive.NilObjectID) (hnan : data.Rating.IsNaN = false) :
    DecodeValue Movie.zero (("_id", bson.Value.objectID id) :: EncodeValue data)
      = some { data with
          ID := id
          Rating := if data.Rating.IsZero then Float32.zero else data.Rating } := by
  obtain ⟨i, t, d, r, dr, g, ra, ru, p⟩ := data
  simp only at h hnan
  subst h
  have f0 : fieldFor "_id" = some Field.ID := by decide
  have f1 : fieldFor "title" = some Field.Title := by decide
  have f2 : fieldFor "description" = some Field.Description := by decide
  have f3 : fieldFor "releasedate" = some Field.ReleaseDate := by decide
  have f4 : fieldFor "director" = some Field.Director := by decide
  have f5 : fieldFor "genre" = some Field.Genre := by decide
  have f6 : fieldFor "rating" = some Field.Rating := by decide
  have f7 : fieldFor "runtime" = some Field.Runtime := by decide
  have f8 : fieldFor "poster" = some Field.Poster := by decide
  have hz : primitive.NilObjectID.IsZero = true := by decide
  have s1 := DecodeValue_omitempty (t = "") "title" (.string t) .Title f1
    ⟨id, "", "", "", "", "", Float32.zero, 0, ""⟩ ⟨id, t, "", "", "", "", Float32.zero, 0, ""⟩
    (fun hc => by rw [hc]) (fun _ => rfl)
  have s2 := DecodeValue_omitempty (d = "") "description" (.string d) .Description f2
    ⟨id, t, "", "", "", "", Float32.zero, 0, ""⟩ ⟨id, t, d, "", "", "", Float32.zero, 0, ""⟩
    (fun hc => by rw [hc]) (fun _ => rfl)
  have s3 := DecodeValue_omitempty (r = "") "releasedate" (.string r) .ReleaseDate f3
    ⟨id, t, d, "", "", "", Float32.zero, 0, ""⟩ ⟨id, t, d, r, "", "", Float32.zero, 0, ""⟩
    (fun hc => by rw [hc]) (fun _ => rfl)
  have s4 := DecodeValue_omitempty (dr = "") "director" (.string dr) .Director f4
    ⟨id, t, d, r, "", "", Float32.zero, 0, ""⟩ ⟨id, t, d, r, dr, "", Float32.zero, 0, ""⟩
    (fun hc => by rw [hc]) (fun _ => rfl)
  have s5 := DecodeValue_omitempty (g = "") "genre" (.string g) .Genre f5
    ⟨id, t, d, r, dr, "", Float32.zero, 0, ""⟩ ⟨id, t, d, r, dr, g, Float32.zero, 0, ""⟩
    (fun hc => by rw [hc]) (fun _ => rfl)
  have s6 := DecodeValue_omitempty (ra.IsZero = true) "rating" (.double ra.toFloat64) .Rating f6
    ⟨id, t, d, r, dr, g, Float32.zero, 0, ""⟩
    ⟨id, t, d, r, dr, g, if ra.IsZero then Float32.zero else ra, 0, ""⟩
    (fun hc => by rw [if_pos hc])
    (fun hc => by
      rw [if_neg hc]
      simp only [decodeField, decodeFloat32, toFloat32?_toFloat64 ra hnan, Option.map_some'])
  have s7 := DecodeValue_omitempty (ru = 0) "runtime" (.int32 ru) .Runtime f7
    ⟨id, t, d, r, dr, g, if ra.IsZero then Float32.zero else ra, 0, ""⟩
    ⟨id, t, d, r, dr, g, if ra.IsZero then Float32.zero else ra, ru, ""⟩
    (fun hc => by rw [hc]) (fun _ => rfl)
  have s8 := DecodeValue_omitempty (p = "") "poster" (.string p) .Poster f8
    ⟨id, t, d, r, dr, g, if ra.IsZero then Float32.zero else ra, ru, ""⟩
    ⟨id, t, d, r, dr, g, if ra.IsZero then Float32.zero else ra, ru, p⟩
    (fun hc => by rw [hc]) (fun _ => rfl)
  simp only [EncodeValue, hz, if_true, List.nil_append, DecodeValue, f0, decodeField,
    decodeObjectID, Option.map_some', DecodeValue_append, Movie.zero]
  rw [s1, Option.some_bind, s2, Option.some_bind, s3, Option.some_bind, s4, Option.some_bind,
    s5, Option.some_bind, s6, Option.some_bind, s7, Option.some_bind, s8]

end bsoncodec

/-! ## Create, read and delete -/

theorem find?_append_new (db : mongo.Collection) (oid : primitive.ObjectID) (doc : bson.D)
    (hnew : db.any (mongo.matchID oid) = false) (hdoc : mongo.matchID oid doc = true) :
    (db ++ [doc]).find? (mongo.matchID oid) = some doc := by
  induction db with
  | nil => simp [List.find?, hdoc]
  | cons d ds ih =>
    simp only [List.any_cons, Bool.or_eq_false_iff] at hnew
    simp only [List.cons_append, List.find?, hnew.1]
    exact ih hnew.2

theorem CreateMovie_ok (db : mongo.Collection) (fault : Bool) (newID : primitive.ObjectID)
    (movie : moviepb.Movie) (res : moviepb.CreateMovieRes) (db' : mongo.Collection)
    (h : CreateMovie db fault newID ⟨some movie⟩ = (.ok res, db')) :
    fault = false ∧ db.any (mongo.matchID newID) = false ∧
    res = ⟨{ movie with Id := newID.Hex }⟩ ∧
    db' = db ++ [("_id", bson.Value.objectID newID) ::
      bsoncodec.EncodeValue ⟨primitive.NilObjectID, movie.Title, movie.Description,
        movie.ReleaseDate, movie.Director, movie.Genre, movie.Rating, movie.Runtime,
        movie.Poster⟩] := by
  have hz : primitive.NilObjectID.IsZero = true := by decide
  cases fault with
  | true => simp [CreateMovie, mongo.InsertOne] at h
  | false =>
    cases hany : db.any (mongo.matchID newID) with
    | true => simp [CreateMovie, mongo.InsertOne, hz, hany] at h
    | false =>
      simp only [CreateMovie, mongo.InsertOne, hz, hany, if_true, Bool.false_eq_true,
        if_false, Prod.mk.injEq, Except.ok.injEq] at h
      exact ⟨rfl, rfl, h.1.symm, h.2.symm⟩

/-- C1, as amended: for a present payload whose rating is not NaN and any
collection in which the insert succeeds, `CreateMovie` followed by `ReadMovie`
of the returned identifier succeeds and returns the payload's title,
description, release date, director, genre, runtime and poster, fields left
empty or zero (which the storage encoding omits) included, and the payload's
rating, where a rating of negative zero, omitted like zero, is read back as
zero. -/
theorem create_then_read (db : mongo.Collection) (fault : Bool) (newID : primitive.ObjectID)
    (movie : moviepb.Movie) (res : moviepb.CreateMovieRes) (db' : mongo.Collection)
    (hnan : movie.Rating.IsNaN = false)
    (h : CreateMovie db fault newID ⟨some movie⟩ = (.ok res, db')) :
    ∃ rec : moviepb.ReadMovieRes,
      ReadMovie db' false ⟨res.Movie.Id⟩ = .ok rec ∧
      rec.Movie.Id = res.Movie.Id ∧
      rec.Movie.Title = movie.Title ∧ rec.Movie.Description = movie.Description ∧
      rec.Movie.ReleaseDate = movie.ReleaseDate ∧ rec.Movie.Director = movie.Director ∧
      rec.Movie.Genre = movie.Genre ∧
      rec.Movie.Rating = (if movie.Rating.IsZero then Float32.zero else movie.Rating) ∧
      rec.Movie.Runtime = movie.Runtime ∧ rec.Movie.Poster = movie.Poster := by
  obtain ⟨-, hnew, hres, hdb⟩ := CreateMovie_ok db fault newID movie res db' h
  subst hres hdb
  refine ⟨⟨{ movie with
      Id := newID.Hex
      Rating := if movie.Rating.IsZero then Float32.zero else movie.Rating }⟩,
    ?_, rfl, rfl, rfl, rfl, rfl, rfl, rfl, rfl, rfl⟩
  have hfind := find?_append_new db newID
    (("_id", bson.Value.objectID newID) ::
      bsoncodec.EncodeValue ⟨primitive.NilObjectID, movie.Title, movie.Description,
        movie.ReleaseDate, movie.Director, movie.Genre, movie.Rating, movie.Runtime,
        movie.Poster⟩) hnew (by simp [mongo.matchID, bson.D.Lookup])
  simp only [ReadMovie, primitive.ObjectIDFromHex_Hex, mongo.FindOne, Bool.false_eq_true,
    if_false, hfind, mongo.SingleResult.Decode]
  rw [bsoncodec.DecodeValue_EncodeValue _ newID rfl hnan]

theorem create_then_read_witness :
    ∃ rec : moviepb.ReadMovieRes,
      ReadMovie (Sample.movies ++ [[("_id", .objectID ⟨List.replicate 12 3, rfl⟩),
          ("title", .string "Alien")]]) false ⟨"030303030303030303030303"⟩ = .ok rec ∧
      rec.Movie.Id = "030303030303030303030303" ∧
      rec.Movie.Title = "Alien" ∧ rec.Movie.Description = "" ∧
      rec.Movie.ReleaseDate = "" ∧ rec.Movie.Director = "" ∧
      rec.Movie.Genre = "" ∧
      rec.Movie.Rating = (if Sample.alien.Rating.IsZero then Float32.zero
        else Sample.alien.Rating) ∧
      rec.Movie.Runtime = 0 ∧ rec.Movie.Poster = "" :=
  create_then_read Sample.movies false ⟨List.replicate 12 3, rfl⟩ Sample.alien
    ⟨{ Sample.alien with Id := "030303030303030303030303" }⟩ _ rfl rfl

/-- C1 as stated fails for a payload whose rating is NaN: `CreateMovie` succeeds
and stores the rating, and `ReadMovie` of the returned identifier returns
not-found, because the decoder refuses a NaN for a `float32` field. -/
theorem create_then_read_fails_for_nan :
    CreateMovie [] false Sample.oidA ⟨some Sample.solaris⟩
      = (.ok ⟨{ Sample.solaris with Id := "010101010101010101010101" }⟩,
          [[("_id", .objectID Sample.oidA), ("title", .string "Solaris"),
            ("rating", .double Sample.notANumber.toFloat64)]]) ∧
    ReadMovie (CreateMovie [] false Sample.oidA ⟨some Sample.solaris⟩).2 false
      ⟨"010101010101010101010101"⟩ = .error .NotFound :=
  ⟨rfl, rfl⟩

/-- C3: `DeleteMovie` with a well-formed identifier that matches no stored record
returns `success: true` and leaves the collection as it is; it does not return
not-found. Evaluated on a collection of two records and a third identifier. -/
theorem delete_missing_reports_success :
    primitive.ObjectIDFromHex "030303030303030303030303" = some ⟨List.replicate 12 3, rfl⟩ ∧
    Sample.movies.any (mongo.matchID ⟨List.replicate 12 3, rfl⟩) = false ∧
    DeleteMovie Sample.movies false ⟨"030303030303030303030303"⟩
      = (.ok ⟨true⟩, Sample.movies) :=
  ⟨by decide, by decide, rfl⟩

/-- C4: an identifier string of the wrong length or with a non-hexadecimal
character (the empty string included, and with it the identifier of an absent
update payload) makes `ReadMovie`, `UpdateMovie` and `DeleteMovie` return
invalid-argument, whatever the collection holds and whatever the storage side
would do, and the collection is handed back unchanged. -/
theorem malformed_identifier_is_invalid_argument (s : String)
    (h : s.utf8ByteSize ≠ 24 ∨ ∃ c ∈ s.data, hex.fromHexChar c = none)
    (db : mongo.Collection) (fault : Bool) :
    ReadMovie db fault ⟨s⟩ = .error .InvalidArgument ∧
    (∀ movie : moviepb.Movie, movie.Id = s →
      UpdateMovie db fault ⟨some movie⟩ = (.error .InvalidArgument, db)) ∧
    UpdateMovie db fault ⟨none⟩ = (.error .InvalidArgument, db) ∧
    DeleteMovie db fault ⟨s⟩ = (.error .InvalidArgument, db) := by
  have hs := primitive.ObjectIDFromHex_eq_none s h
  have he : primitive.ObjectIDFromHex "" = none := by decide
  refine ⟨?_, ?_, ?_, ?_⟩
  · simp only [ReadMovie, hs]
  · intro movie hm
    simp only [UpdateMovie, moviepb.GetId, hm, hs]
  · simp only [UpdateMovie, moviepb.GetId, he]
  · simp only [DeleteMovie, hs]

theorem malformed_identifier_is_invalid_argument_witness :
    ReadMovie Sample.movies false ⟨"01010101010101010101010g"⟩ = .error .InvalidArgument ∧
    (∀ movie : moviepb.Movie, movie.Id = "01010101010101010101010g" →
      UpdateMovie Sample.movies false ⟨some movie⟩ = (.error .InvalidArgument, Sample.movies)) ∧
    UpdateMovie Sample.movies false ⟨none⟩ = (.error .InvalidArgument, Sample.movies) ∧
    DeleteMovie Sample.movies false ⟨"01010101010101010101010g"⟩
      = (.error .InvalidArgument, Sample.movies) :=
  malformed_identifier_is_invalid_argument "01010101010101010101010g"
    (Or.inr ⟨'g', by decide, by decide⟩) Sample.movies false

/-- C7: `CreateMovie` has three outcomes. With an absent payload it returns
invalid-argument and stores nothing. With a payload and a failing insert (a
storage failure, or an identifier already in the collection) it returns internal
and stores nothing. Otherwise it succeeds: one document is appended, its `_id`
is the identifier the storage side assigned, the same document is stored
whatever the payload's own id field says, and the response is the payload with
its id replaced by the hexadecimal rendering of the assigned identifier. -/
theorem CreateMovie_outcomes (db : mongo.Collection) (fault : Bool)
    (newID : primitive.ObjectID) (req : moviepb.CreateMovieReq) :
    (req.Movie = none ∧ CreateMovie db fault newID req = (.error .InvalidArgument, db)) ∨
    (∃ movie, req.Movie = some movie ∧
      (fault = true ∨ db.any (mongo.matchID newID) = true) ∧
      CreateMovie db fault newID req = (.error .Internal, db)) ∨
    (∃ movie doc, req.Movie = some movie ∧
      fault = false ∧ db.any (mongo.matchID newID) = false ∧
      CreateMovie db fault newID req = (.ok ⟨{ movie with Id := newID.Hex }⟩, db ++ [doc]) ∧
      doc.Lookup "_id" = some (bson.Value.objectID newID) ∧
      ∀ id : String,
        (CreateMovie db fault newID ⟨some { movie with Id := id }⟩).2 = db ++ [doc]) := by
  have hz : primitive.NilObjectID.IsZero = true := by decide
  obtain ⟨m⟩ := req
  cases m with
  | none => exact Or.inl ⟨rfl, rfl⟩
  | some movie =>
    right
    cases fault with
    | true => exact Or.inl ⟨movie, rfl, Or.inl rfl, by simp [CreateMovie, mongo.InsertOne]⟩
    | false =>
      cases hany : db.any (mongo.matchID newID) with
      | true =>
        exact Or.inl ⟨movie, rfl, Or.inr rfl, by simp [CreateMovie, mongo.InsertOne, hz, hany]⟩
      | false =>
        refine Or.inr ⟨movie, ("_id", bson.Value.objectID newID) ::
          bsoncodec.EncodeValue ⟨primitive.NilObjectID, movie.Title, movie.Description,
            movie.ReleaseDate, movie.Director, movie.Genre, movie.Rating, movie.Runtime,
            movie.Poster⟩, rfl, rfl, rfl, ?_, ?_, ?_⟩
        · simp only [CreateMovie, mongo.InsertOne, hz, hany, if_true, Bool.false_eq_true,
            if_false]
        · exact bson.D.Lookup_cons_self _ _ _
        · intro id
          simp only [CreateMovie, mongo.InsertOne, hz, hany, if_true, Bool.false_eq_true,
            if_false]

theorem matchID_iff (oid : primitive.ObjectID) (d : bson.D) :
    mongo.matchID oid d = true ↔ d.Lookup "_id" = some (bson.Value.objectID oid) := by
  simp [mongo.matchID]

theorem find?_eraseP_self (oid : primitive.ObjectID) (db : mongo.Collection)
    (huniq : (mongo.ids db).Nodup) :
    (db.eraseP (mongo.matchID oid)).find? (mongo.matchID oid) = none := by
  induction db with
  | nil => rfl
  | cons d ds ih =>
    simp only [mongo.ids, List.map_cons, List.nodup_cons] at huniq
    cases hd : mongo.matchID oid d with
    | true =>
      rw [List.eraseP_cons_of_pos hd, List.find?_eq_none]
      intro x hx hmx
      apply huniq.1
      rw [(matchID_iff oid d).1 hd, ← (matchID_iff oid x).1 hmx]
      exact List.mem_map_of_mem _ hx
    | false =>
      rw [List.eraseP_cons_of_neg (by simp [hd])]
      simp only [List.find?, hd]
      exact ih huniq.2

theorem find?_eraseP_other (oid oid' : primitive.ObjectID) (hne : oid' ≠ oid)
    (db : mongo.Collection) :
    (db.eraseP (mongo.matchID oid)).find? (mongo.matchID oid') = db.find? (mongo.matchID oid') := by
  induction db with
  | nil => rfl
  | cons d ds ih =>
    cases hd : mongo.matchID oid d with
    | true =>
      rw [List.eraseP_cons_of_pos hd]
      have hd' : mongo.matchID oid' d = false := by
        cases h : mongo.matchID oid' d with
        | false => rfl
        | true =>
          have h1 := (matchID_iff oid d).1 hd
          have h2 := (matchID_iff oid' d).1 h
          rw [h1] at h2
          simp only [Option.some.injEq, bson.Value.objectID.injEq] at h2
          exact absurd h2.symm hne
      simp only [List.find?, hd']
    | false =>
      rw [List.eraseP_cons_of_neg (by simp [hd])]
      simp only [List.find?, ih]

/-- C5: in a collection whose identifiers are pairwise different, after a
successful `DeleteMovie` of an identifier `ReadMovie` of that identifier returns
not-found, and `ReadMovie` of any other identifier returns exactly what it
returned before the delete. -/
theorem delete_then_read (db : mongo.Collection) (huniq : (mongo.ids db).Nodup)
    (fault : Bool) (s : String) (res : moviepb.DeleteMovieRes) (db' : mongo.Collection)
    (h : DeleteMovie db fault ⟨s⟩ = (.ok res, db')) :
    (∀ f, ReadMovie db' f ⟨s⟩ = .error .NotFound) ∧
    ∀ f s', primitive.ObjectIDFromHex s' ≠ primitive.ObjectIDFromHex s →
      ReadMovie db' f ⟨s'⟩ = ReadMovie db f ⟨s'⟩ := by
  cases hs : primitive.ObjectIDFromHex s with
  | none => simp [DeleteMovie, hs] at h
  | some oid =>
    cases fault with
    | true => simp [DeleteMovie, hs, mongo.DeleteOne] at h
    | false =>
      simp only [DeleteMovie, hs, mongo.DeleteOne, Bool.false_eq_true, if_false,
        Prod.mk.injEq] at h
      obtain ⟨-, hdb⟩ := h
      subst hdb
      constructor
      · intro f
        cases f <;>
          simp [ReadMovie, hs, mongo.FindOne, find?_eraseP_self oid db huniq,
            mongo.SingleResult.Decode]
      · intro f s' hne
        cases hs' : primitive.ObjectIDFromHex s' with
        | none => simp only [ReadMovie, hs']
        | some oid' =>
          have hne' : oid' ≠ oid := by
            intro he
            apply hne
            rw [hs', he]
          simp only [ReadMovie, hs', mongo.FindOne, find?_eraseP_other oid oid' hne' db]

theorem delete_then_read_witness :
    (∀ f, ReadMovie [Sample.docAlien] f ⟨"010101010101010101010101"⟩ = .error .NotFound) ∧
    ∀ f s', primitive.ObjectIDFromHex s' ≠ primitive.ObjectIDFromHex "010101010101010101010101" →
      ReadMovie [Sample.docAlien] f ⟨s'⟩ = ReadMovie Sample.movies f ⟨s'⟩ :=
  delete_then_read Sample.movies (by decide) false "010101010101010101010101" ⟨true⟩
    [Sample.docAlien] rfl

/-! ## Decoding the documents the service writes -/

namespace bsoncodec

open models

/-- Decoding a value into a field leaves the other fields alone. -/
theorem decodeField_keeps (data data' : Movie) (f : Field) (v : bson.Value)
    (h : decodeField data f v = some data') : ∀ g, g ≠ f → data'.get g = data.get g := by
  cases f <;> simp only [decodeField, Option.map_eq_some'] at h <;>
    obtain ⟨x, -, rfl⟩ := h <;> intro g hg <;> cases g <;>
    first | rfl | exact absurd rfl hg

/-- A field none of the names of a document is decoded into keeps its value,
whenever the document decodes. -/
theorem DecodeValue_keeps (g : Field) :
    ∀ (l : bson.D) (data data' : Movie), DecodeValue data l = some data' →
      (∀ e ∈ l, fieldFor e.1 ≠ some g) → data'.get g = data.get g := by
  intro l
  induction l with
  | nil =>
    intro data data' h _
    simp only [DecodeValue, Option.some.injEq] at h
    rw [h]
  | cons e l ih =>
    intro data data' h hg
    obtain ⟨k, v⟩ := e
    cases hf : fieldFor k with
    | none =>
      simp only [DecodeValue, hf] at h
      exact ih data data' h (fun e he => hg e (List.mem_cons_of_mem _ he))
    | some f =>
      cases hd : decodeField data f v with
      | none => simp [DecodeValue, hf, hd] at h
      | some d1 =>
        simp only [DecodeValue, hf, hd] at h
        rw [ih d1 data' h (fun e he => hg e (List.mem_cons_of_mem _ he))]
        apply decodeField_keeps data d1 f v hd
        intro hgf
        exact hg (k, v) (List.mem_cons_self _ _) (by rw [hf, hgf])

/-- A service element is decoded into a field other than the identifier; its name
is the tag of that field, or `releaseDate` for the release date; and when its
value is not refused, decoding it stores the value in that field. -/
theorem serviceElem_fieldFor (e : String × bson.Value) (h : serviceElem e = true) :
    ∃ f, fieldFor e.1 = some f ∧ f ≠ Field.ID ∧
      (e.1 = f.tag ∨ (f = Field.ReleaseDate ∧ e.1 = "releaseDate")) ∧
      (decodableElem e = true →
        ∀ data, ∃ data', decodeField data f e.2 = some data' ∧ data'.get f = e.2) := by
  obtain ⟨k, v⟩ := e
  cases v with
  | objectID id => simp [serviceElem] at h
  | array => simp [serviceElem] at h
  | double x =>
    simp only [serviceElem, decide_eq_true_eq] at h
    subst h
    refine ⟨Field.Rating, (by show fieldFor "rating" = _; decide), by decide, Or.inl rfl, ?_⟩
    intro hdec data
    simp only [decodableElem, Option.isSome_iff_exists] at hdec
    obtain ⟨y, hy⟩ := hdec
    refine ⟨{ data with Rating := y }, ?_, ?_⟩
    · simp only [decodeField, decodeFloat32, hy, Option.map_some']
    · simp only [Movie.get, toFloat32?_eq_some x y hy]
  | int32 n =>
    simp only [serviceElem, decide_eq_true_eq] at h
    subst h
    exact ⟨Field.Runtime, (by show fieldFor "runtime" = _; decide), by decide, Or.inl rfl,
      fun _ data => ⟨_, rfl, rfl⟩⟩
  | string s =>
    simp only [serviceElem, decide_eq_true_eq, List.mem_cons, List.mem_singleton,
      List.mem_nil_iff, or_false] at h
    rcases h with h | h | h | h | h | h | h <;> subst h
    · exact ⟨Field.Title, (by show fieldFor "title" = _; decide), by decide, Or.inl rfl,
        fun _ data => ⟨_, rfl, rfl⟩⟩
    · exact ⟨Field.Description, (by show fieldFor "description" = _; decide), by decide, Or.inl rfl,
        fun _ data => ⟨_, rfl, rfl⟩⟩
    · exact ⟨Field.ReleaseDate, (by show fieldFor "releasedate" = _; decide), by decide, Or.inl rfl,
        fun _ data => ⟨_, rfl, rfl⟩⟩
    · exact ⟨Field.ReleaseDate, (by show fieldFor "releaseDate" = _; decide), by decide,
        Or.inr ⟨rfl, rfl⟩, fun _ data => ⟨_, rfl, rfl⟩⟩
    · exact ⟨Field.Director, (by show fieldFor "director" = _; decide), by decide, Or.inl rfl,
        fun _ data => ⟨_, rfl, rfl⟩⟩
    · exact ⟨Field.Genre, (by show fieldFor "genre" = _; decide), by decide, Or.inl rfl,
        fun _ data => ⟨_, rfl, rfl⟩⟩
    · exact ⟨Field.Poster, (by show fieldFor "poster" = _; decide), by decide, Or.inl rfl,
        fun _ data => ⟨_, rfl, rfl⟩⟩

/-- A list of service elements whose values are not refused always decodes, and
a field none of its names is decoded into keeps its value. -/
theorem DecodeValue_service (l : bson.D) (hl : l.all serviceElem = true)
    (hdec : l.all decodableElem = true) :
    ∀ data, ∃ data', DecodeValue data l = some data' ∧
      ∀ g, (∀ e ∈ l, fieldFor e.1 ≠ some g) → data'.get g = data.get g := by
  have hsome : ∀ data, ∃ data', DecodeValue data l = some data' := by
    induction l with
    | nil => intro data; exact ⟨data, rfl⟩
    | cons e l ih =>
      intro data
      simp only [List.all_cons, Bool.and_eq_true] at hl hdec
      obtain ⟨f, hf, -, -, hd⟩ := serviceElem_fieldFor e hl.1
      obtain ⟨data1, h1, -⟩ := hd hdec.1 data
      obtain ⟨data2, h2⟩ := ih hl.2 hdec.2 data1
      obtain ⟨k, v⟩ := e
      exact ⟨data2, by simp only [DecodeValue, hf, h1, h2]⟩
  intro data
  obtain ⟨data', h⟩ := hsome data
  exact ⟨data', h, fun g hg => DecodeValue_keeps g l data data' h hg⟩

/-- The value a field gets from the last element decoded into it. -/
theorem DecodeValue_last (l1 l2 : bson.D) (k : String) (v : bson.Value) (f : Field)
    (h1 : l1.all serviceElem = true) (he : serviceElem (k, v) = true)
    (h2 : l2.all serviceElem = true) (hd1 : l1.all decodableElem = true)
    (hde : decodableElem (k, v) = true) (hd2 : l2.all decodableElem = true)
    (hf : fieldFor k = some f)
    (hlast : ∀ e ∈ l2, fieldFor e.1 ≠ some f) (data : Movie) :
    ∃ data', DecodeValue data (l1 ++ (k, v) :: l2) = some data' ∧ data'.get f = v := by
  obtain ⟨d1, hd1', -⟩ := DecodeValue_service l1 h1 hd1 data
  obtain ⟨f', hf', -, -, hdec⟩ := serviceElem_fieldFor (k, v) he
  have hff : f' = f := by
    rw [hf] at hf'
    exact (Option.some.inj hf').symm
  subst hff
  obtain ⟨d2, hd2', hv⟩ := hdec hde d1
  obtain ⟨d3, hd3, hkeep⟩ := DecodeValue_service l2 h2 hd2 d2
  refine ⟨d3, ?_, ?_⟩
  · rw [DecodeValue_append, hd1']
    simp only [Option.bind, DecodeValue, hf, hd2', hd3]
  · rw [hkeep f' hlast, hv]

end bsoncodec

/-! ## The `$set` update -/

namespace mongo

theorem setField_cons_ne (k0 : String) (v0 : bson.Value) (rest : bson.D) (k : String)
    (v : bson.Value) (h : k0 ≠ k) :
    setField ((k0, v0) :: rest) k v = (k0, v0) :: setField rest k v := by
  simp only [setField, List.any_cons, h, decide_False, Bool.false_or, List.map_cons, if_false]
  split <;> rfl

theorem applySet_cons_ne (k0 : String) (v0 : bson.Value) (u : bson.D)
    (h : ∀ e ∈ u, e.1 ≠ k0) :
    ∀ rest, applySet ((k0, v0) :: rest) u = (k0, v0) :: applySet rest u := by
  induction u with
  | nil => intro rest; rfl
  | cons e u ih =>
    intro rest
    have he : k0 ≠ e.1 := fun hk => h e (List.mem_cons_self _ _) hk.symm
    simp only [applySet, List.foldl_cons, setField_cons_ne k0 v0 rest e.1 e.2 he]
    exact ih (fun x hx => h x (List.mem_cons_of_mem _ hx)) _

theorem setField_keys (d : bson.D) (k : String) (v : bson.Value) :
    (setField d k v).map Prod.fst = d.map Prod.fst ∨
    (setField d k v).map Prod.fst = d.map Prod.fst ++ [k] := by
  unfold setField
  split
  · left
    rw [List.map_map]
    apply List.map_congr_left
    intro e _
    simp only [Function.comp]
    split
    · rename_i h; exact h.symm
    · rfl
  · right
    simp

theorem setField_all_service (d : bson.D) (k : String) (v : bson.Value)
    (hd : d.all serviceElem = true) (he : serviceElem (k, v) = true) :
    (setField d k v).all serviceElem = true := by
  rw [List.all_eq_true] at hd ⊢
  unfold setField
  split
  · intro x hx
    obtain ⟨e, hel, rfl⟩ := List.mem_map.1 hx
    split
    · exact he
    · exact hd e hel
  · intro x hx
    rcases List.mem_append.1 hx with h | h
    · exact hd x h
    · rw [List.mem_singleton.1 h]; exact he

theorem releaseOrder_concat (ks : List String) (k : String) (hk : k ≠ "releasedate")
    (h : releaseOrder ks = true) : releaseOrder (ks ++ [k]) = true := by
  induction ks with
  | nil => simp [releaseOrder]
  | cons a ks ih =>
    simp only [releaseOrder, Bool.and_eq_true, Bool.or_eq_true, decide_eq_true_eq,
      Bool.not_eq_true', List.cons_append] at h ⊢
    refine ⟨?_, ih h.2⟩
    rcases h.1 with h1 | h1
    · exact Or.inl h1
    · right
      show (ks ++ [k]).contains "releasedate" = false
      rw [Bool.eq_false_iff] at h1 ⊢
      intro hc
      apply h1
      obtain ⟨x, hx, hxe⟩ := List.contains_iff_exists_mem_beq.1 hc
      rcases List.mem_append.1 hx with hx | hx
      · exact List.contains_iff_exists_mem_beq.2 ⟨x, hx, hxe⟩
      · rw [List.mem_singleton.1 hx] at hxe
        exact absurd (beq_iff_eq.1 hxe).symm hk

theorem setField_releaseOrder (d : bson.D) (k : String) (v : bson.Value)
    (hk : k ≠ "releasedate") (h : releaseOrder (d.map Prod.fst) = true) :
    releaseOrder ((setField d k v).map Prod.fst) = true := by
  rcases setField_keys d k v with hkeys | hkeys <;> rw [hkeys]
  · exact h
  · exact releaseOrder_concat _ k hk h

theorem setField_sets (d : bson.D) (k : String) (v : bson.Value) :
    (∃ e ∈ setField d k v, e.1 = k) ∧ ∀ e ∈ setField d k v, e.1 = k → e.2 = v := by
  unfold setField
  split
  · rename_i hany
    obtain ⟨e0, he0, hk0⟩ := List.any_eq_true.1 hany
    have hk0' : e0.1 = k := by simpa using hk0
    constructor
    · exact ⟨(k, v), List.mem_map.2 ⟨e0, he0, by simp [hk0']⟩, rfl⟩
    · intro e he hek
      obtain ⟨e', _, rfl⟩ := List.mem_map.1 he
      split
      · rfl
      · rename_i hne
        rw [if_neg hne] at hek
        exact absurd hek hne
  · rename_i hany
    have hno : ∀ e ∈ d, e.1 ≠ k := by
      intro e he hk
      apply hany
      exact List.any_eq_true.2 ⟨e, he, by simpa using hk⟩
    constructor
    · exact ⟨(k, v), by simp, rfl⟩
    · intro e he hek
      rcases List.mem_append.1 he with h | h
      · exact absurd hek (hno e h)
      · rw [List.mem_singleton.1 h]

theorem setField_keeps (d : bson.D) (k : String) (v : bson.Value) (k' : String)
    (v' : bson.Value) (hne : k' ≠ k)
    (h : (∃ e ∈ d, e.1 = k) ∧ ∀ e ∈ d, e.1 = k → e.2 = v) :
    (∃ e ∈ setField d k' v', e.1 = k) ∧ ∀ e ∈ setField d k' v', e.1 = k → e.2 = v := by
  obtain ⟨⟨e0, he0, hk0⟩, hall⟩ := h
  unfold setField
  split
  · constructor
    · refine ⟨e0, List.mem_map.2 ⟨e0, he0, ?_⟩, hk0⟩
      rw [if_neg]
      rw [hk0]; exact fun hh => hne hh.symm
    · intro e he hek
      obtain ⟨e', he', rfl⟩ := List.mem_map.1 he
      by_cases hc : e'.1 = k'
      · rw [if_pos hc] at hek
        exact absurd hek hne
      · rw [if_neg hc] at hek ⊢
        exact hall e' he' hek
  · constructor
    · exact ⟨e0, List.mem_append_left _ he0, hk0⟩
    · intro e he hek
      rcases List.mem_append.1 he with h | h
      · exact hall e h hek
      · rw [List.mem_singleton.1 h] at hek
        exact absurd hek hne

theorem applySet_keeps (u : bson.D) (k : String) (v : bson.Value)
    (hk : ∀ e ∈ u, e.1 ≠ k) :
    ∀ d : bson.D, ((∃ e ∈ d, e.1 = k) ∧ ∀ e ∈ d, e.1 = k → e.2 = v) →
      (∃ e ∈ applySet d u, e.1 = k) ∧ ∀ e ∈ applySet d u, e.1 = k → e.2 = v := by
  induction u with
  | nil => intro d h; exact h
  | cons e u ih =>
    intro d h
    simp only [applySet, List.foldl_cons]
    exact ih (fun x hx => hk x (List.mem_cons_of_mem _ hx)) _
      (setField_keeps d k v e.1 e.2 (hk e (List.mem_cons_self _ _)) h)

theorem applySet_sets (u : bson.D) (hu : (u.map Prod.fst).Nodup) :
    ∀ (d : bson.D) (k : String) (v : bson.Value), (k, v) ∈ u →
      (∃ e ∈ applySet d u, e.1 = k) ∧ ∀ e ∈ applySet d u, e.1 = k → e.2 = v := by
  induction u with
  | nil => intro d k v h; simp at h
  | cons e u ih =>
    intro d k v h
    simp only [List.map_cons, List.nodup_cons] at hu
    simp only [applySet, List.foldl_cons]
    rcases List.mem_cons.1 h with h | h
    · subst h
      apply applySet_keeps u k v _ _ (setField_sets d k v)
      intro x hx hxk
      have hmem : x.1 ∈ u.map Prod.fst := List.mem_map_of_mem Prod.fst hx
      rw [hxk] at hmem
      exact hu.1 hmem
    · exact ih hu.2 _ k v h

theorem applySet_all_service (u : bson.D) (hu : u.all serviceElem = true) :
    ∀ d : bson.D, d.all serviceElem = true → (applySet d u).all serviceElem = true := by
  induction u with
  | nil => intro d h; exact h
  | cons e u ih =>
    intro d h
    simp only [List.all_cons, Bool.and_eq_true] at hu
    simp only [applySet, List.foldl_cons]
    exact ih hu.2 _ (setField_all_service d e.1 e.2 h hu.1)

theorem applySet_releaseOrder (u : bson.D) (hu : ∀ e ∈ u, e.1 ≠ "releasedate") :
    ∀ d : bson.D, releaseOrder (d.map Prod.fst) = true →
      releaseOrder ((applySet d u).map Prod.fst) = true := by
  induction u with
  | nil => intro d h; exact h
  | cons e u ih =>
    intro d h
    simp only [applySet, List.foldl_cons]
    exact ih (fun x hx => hu x (List.mem_cons_of_mem _ hx)) _
      (setField_releaseOrder d e.1 e.2 (hu e (List.mem_cons_self _ _)) h)

end mongo

/-! ## Update followed by decoding -/

theorem exists_last_key (k : String) (l : bson.D) (h : ∃ e ∈ l, e.1 = k) :
    ∃ l1 v l2, l = l1 ++ (k, v) :: l2 ∧ ∀ e ∈ l2, e.1 ≠ k := by
  induction l with
  | nil => obtain ⟨e, he, _⟩ := h; simp at he
  | cons a t ih =>
    by_cases ht : ∃ e ∈ t, e.1 = k
    · obtain ⟨l1, v, l2, hl, hno⟩ := ih ht
      exact ⟨a :: l1, v, l2, by rw [hl]; rfl, hno⟩
    · obtain ⟨e, he, hek⟩ := h
      rcases List.mem_cons.1 he with hea | het
      · subst hea
        refine ⟨[], e.2, t, ?_, fun x hx hxk => ht ⟨x, hx, hxk⟩⟩
        rw [← hek]; rfl
      · exact absurd ⟨e, het, hek⟩ ht

theorem releaseOrder_split (l1 : bson.D) (v : bson.Value) (l2 : bson.D)
    (h : releaseOrder ((l1 ++ ("releaseDate", v) :: l2).map Prod.fst) = true) :
    ∀ e ∈ l2, e.1 ≠ "releasedate" := by
  induction l1 with
  | nil =>
    simp only [List.nil_append, List.map_cons, releaseOrder, Bool.and_eq_true, Bool.or_eq_true,
      decide_eq_true_eq, Bool.not_eq_true', ne_eq, not_true_eq_false, false_or] at h
    intro e he hek
    have hc : (l2.map Prod.fst).contains "releasedate" = true :=
      List.contains_iff_exists_mem_beq.2 ⟨e.1, List.mem_map_of_mem Prod.fst he, by simp [hek]⟩
    rw [h.1] at hc
    exact Bool.false_ne_true hc
  | cons a l1 ih =>
    simp only [List.cons_append, List.map_cons, releaseOrder, Bool.and_eq_true] at h
    exact ih h.2

/-- In a list of service elements in release order, a field takes the value that
the elements under its update name carry. -/
theorem field_after_set (l : bson.D) (hall : l.all serviceElem = true)
    (hdall : l.all decodableElem = true)
    (hord : releaseOrder (l.map Prod.fst) = true) (k : String) (v : bson.Value)
    (f : models.Field) (hset : (∃ e ∈ l, e.1 = k) ∧ ∀ e ∈ l, e.1 = k → e.2 = v)
    (hf : bsoncodec.fieldFor k = some f)
    (hk1 : f ≠ models.Field.ReleaseDate → k = f.tag)
    (hk2 : f = models.Field.ReleaseDate → k = "releaseDate")
    (data data' : models.Movie) (hdec : bsoncodec.DecodeValue data l = some data') :
    data'.get f = v := by
  obtain ⟨l1, v0, l2, hl, hno⟩ := exists_last_key k l hset.1
  have hv0 : v0 = v := hset.2 (k, v0) (by rw [hl]; simp) rfl
  subst hv0
  rw [hl, List.all_append, List.all_cons, Bool.and_eq_true, Bool.and_eq_true] at hall hdall
  obtain ⟨hall1, hallk, hall2⟩ := hall
  obtain ⟨hdall1, hdallk, hdall2⟩ := hdall
  have hlast : ∀ e ∈ l2, bsoncodec.fieldFor e.1 ≠ some f := by
    intro e he hfe
    obtain ⟨f', hf', -, hkey, -⟩ :=
      bsoncodec.serviceElem_fieldFor e (List.all_eq_true.1 hall2 e he)
    have hff : f' = f := by
      rw [hfe] at hf'
      exact (Option.some.inj hf').symm
    subst hff
    by_cases hr : f' = models.Field.ReleaseDate
    · have hkr := hk2 hr
      subst hkr
      rcases hkey with h | ⟨-, h⟩
      · rw [hr] at h
        rw [hl] at hord
        exact releaseOrder_split l1 v0 l2 hord e he h
      · exact hno e he h
    · rcases hkey with h | ⟨h, -⟩
      · exact hno e he (h.trans (hk1 hr).symm)
      · exact hr h
  obtain ⟨d, hd, hget⟩ := bsoncodec.DecodeValue_last l1 l2 k v0 f hall1 hallk hall2
    hdall1 hdallk hdall2 hf hlast data
  rw [hl, hd] at hdec
  rw [← Option.some.inj hdec]
  exact hget

theorem update_all_service (movie : Option moviepb.Movie) :
    (UpdateMovie.update movie).all serviceElem = true := by
  simp [UpdateMovie.update, serviceElem]

theorem update_keys (movie : Option moviepb.Movie) :
    (UpdateMovie.update movie).map Prod.fst
      = ["description", "director", "genre", "poster", "rating", "releaseDate", "runtime",
        "title"] := rfl

theorem update_keys_ne (movie : Option moviepb.Movie) (k : String)
    (hk : k ∉ ["description", "director", "genre", "poster", "rating", "releaseDate", "runtime",
        "title"]) : ∀ e ∈ UpdateMovie.update movie, e.1 ≠ k := by
  intro e he hek
  apply hk
  rw [← update_keys movie, ← hek]
  exact List.mem_map_of_mem Prod.fst he

/-- What `$set` with a payload whose rating is not NaN leaves of a list of service
elements holds no double the decoder refuses: the rating elements are the ones
of the payload. -/
theorem applySet_all_decodable (rest : bson.D) (hall : rest.all serviceElem = true)
    (movie : Option moviepb.Movie) (hnan : (moviepb.GetRating movie).IsNaN = false) :
    (mongo.applySet rest (UpdateMovie.update movie)).all decodableElem = true := by
  have hall' := mongo.applySet_all_service _ (update_all_service movie) rest hall
  have hnodup : ((UpdateMovie.update movie).map Prod.fst).Nodup := by
    rw [update_keys]; decide
  have hset := (mongo.applySet_sets _ hnodup rest "rating"
    (.double (moviepb.GetRating movie).toFloat64) (by simp [UpdateMovie.update])).2
  rw [List.all_eq_true]
  intro e he
  have hs := List.all_eq_true.1 hall' e he
  obtain ⟨k, v⟩ := e
  cases v with
  | double x =>
    have hk : k = "rating" := by simpa [serviceElem] using hs
    have hv := hset (k, .double x) he hk
    simp only [bson.Value.double.injEq] at hv
    simp only [decodableElem, hv, bsoncodec.toFloat32?_toFloat64 _ hnan, Option.isSome_some]
  | objectID id => rfl
  | string t => rfl
  | int32 n => rfl
  | array => rfl

/-- Decoding what `$set` leaves of a list of service elements: every field but
the identifier holds the value of the update payload, when the rating of the
payload is not NaN. -/
theorem DecodeValue_applySet (rest : bson.D) (hall : rest.all serviceElem = true)
    (hord : releaseOrder (rest.map Prod.fst) = true) (movie : Option moviepb.Movie)
    (hnan : (moviepb.GetRating movie).IsNaN = false)
    (data : models.Movie) :
    bsoncodec.DecodeValue data (mongo.applySet rest (UpdateMovie.update movie))
      = some ⟨data.ID, moviepb.GetTitle movie, moviepb.GetDescription movie,
          moviepb.GetReleaseDate movie, moviepb.GetDirector movie, moviepb.GetGenre movie,
          moviepb.GetRating movie, moviepb.GetRuntime movie, moviepb.GetPoster movie⟩ := by
  have hall' := mongo.applySet_all_service _ (update_all_service movie) rest hall
  have hord' := mongo.applySet_releaseOrder _ (update_keys_ne movie "releasedate" (by decide))
    rest hord
  have hnodup : ((UpdateMovie.update movie).map Prod.fst).Nodup := by
    rw [update_keys]; decide
  have hsets := mongo.applySet_sets _ hnodup rest
  have hdall' := applySet_all_decodable rest hall movie hnan
  obtain ⟨d, hd, hkeep⟩ := bsoncodec.DecodeValue_service _ hall' hdall' data
  have hid : d.get models.Field.ID = data.get models.Field.ID := by
    apply hkeep
    intro e he hfe
    obtain ⟨f', hf', hne, -, -⟩ :=
      bsoncodec.serviceElem_fieldFor e (List.all_eq_true.1 hall' e he)
    rw [hfe] at hf'
    exact hne (Option.some.inj hf').symm
  have h1 := field_after_set _ hall' hdall' hord' "title" _ models.Field.Title
    (hsets "title" (.string (moviepb.GetTitle movie)) (by simp [UpdateMovie.update]))
    (by decide) (fun _ => rfl) (fun h => by cases h) data d hd
  have h2 := field_after_set _ hall' hdall' hord' "description" _ models.Field.Description
    (hsets "description" (.string (moviepb.GetDescription movie)) (by simp [UpdateMovie.update]))
    (by decide) (fun _ => rfl) (fun h => by cases h) data d hd
  have h3 := field_after_set _ hall' hdall' hord' "releaseDate" _ models.Field.ReleaseDate
    (hsets "releaseDate" (.string (moviepb.GetReleaseDate movie)) (by simp [UpdateMovie.update]))
    (by decide) (fun h => absurd rfl h) (fun _ => rfl) data d hd
  have h4 := field_after_set _ hall' hdall' hord' "director" _ models.Field.Director
    (hsets "director" (.string (moviepb.GetDirector movie)) (by simp [UpdateMovie.update]))
    (by decide) (fun _ => rfl) (fun h => by cases h) data d hd
  have h5 := field_after_set _ hall' hdall' hord' "genre" _ models.Field.Genre
    (hsets "genre" (.string (moviepb.GetGenre movie)) (by simp [UpdateMovie.update]))
    (by decide) (fun _ => rfl) (fun h => by cases h) data d hd
  have h6 := field_after_set _ hall' hdall' hord' "rating" _ models.Field.Rating
    (hsets "rating" (.double (moviepb.GetRating movie).toFloat64)
      (by simp [UpdateMovie.update]))
    (by decide) (fun _ => rfl) (fun h => by cases h) data d hd
  have h7 := field_after_set _ hall' hdall' hord' "runtime" _ models.Field.Runtime
    (hsets "runtime" (.int32 (moviepb.GetRuntime movie)) (by simp [UpdateMovie.update]))
    (by decide) (fun _ => rfl) (fun h => by cases h) data d hd
  have h8 := field_after_set _ hall' hdall' hord' "poster" _ models.Field.Poster
    (hsets "poster" (.string (moviepb.GetPoster movie)) (by simp [UpdateMovie.update]))
    (by decide) (fun _ => rfl) (fun h => by cases h) data d hd
  rw [hd]
  obtain ⟨i, t, de, r, dr, g, ra, ru, p⟩ := d
  simp only [models.Movie.get, bson.Value.objectID.injEq, bson.Value.string.injEq,
    bson.Value.double.injEq, bson.Value.int32.injEq] at hid h1 h2 h3 h4 h5 h6 h7 h8
  rw [hid, h1, h2, h3, h4, h5, bsoncodec.Float32_eq_of_toFloat64 _ _ h6, h7, h8]

/-! ## Service documents under the handlers -/

theorem serviceDoc_iff (d : bson.D) :
    serviceDoc d = true ↔
      ∃ id rest, d = ("_id", bson.Value.objectID id) :: rest ∧
        rest.all serviceElem = true ∧ releaseOrder (rest.map Prod.fst) = true := by
  constructor
  · intro h
    match d, h with
    | (k, .objectID id) :: rest, h =>
      simp only [serviceDoc, Bool.and_eq_true, decide_eq_true_eq] at h
      obtain ⟨⟨hk, hall⟩, hord⟩ := h
      subst hk
      exact ⟨id, rest, rfl, hall, hord⟩
  · rintro ⟨id, rest, rfl, hall, hord⟩
    simp [serviceDoc, hall, hord]

theorem fieldFor_id : bsoncodec.fieldFor "_id" = some models.Field.ID := by decide

/-- Whenever a service document decodes, the buffer holds the document's
identifier afterwards. -/
theorem DecodeValue_serviceDoc_ID (d : bson.D) (h : serviceDoc d = true)
    (data data' : models.Movie) (hdec : bsoncodec.DecodeValue data d = some data') :
    some data'.ID = mongo.docID d := by
  obtain ⟨id, rest, rfl, hall, -⟩ := (serviceDoc_iff d).1 h
  simp only [bsoncodec.DecodeValue, fieldFor_id, bsoncodec.decodeField,
    bsoncodec.decodeObjectID, Option.map_some'] at hdec
  have hid : data'.get models.Field.ID = bson.Value.objectID id := by
    apply bsoncodec.DecodeValue_keeps models.Field.ID rest _ data' hdec
    intro e he hfe
    obtain ⟨f', hf', hne, -, -⟩ :=
      bsoncodec.serviceElem_fieldFor e (List.all_eq_true.1 hall e he)
    rw [hfe] at hf'
    exact hne (Option.some.inj hf').symm
  simp only [models.Movie.get, bson.Value.objectID.injEq] at hid
  simp [mongo.docID, bson.D.Lookup, hid]

/-- A readable document decodes into any buffer, and the buffer then holds the
document's identifier. -/
theorem DecodeValue_readableDoc (d : bson.D) (h : readableDoc d = true) (data : models.Movie) :
    ∃ data', bsoncodec.DecodeValue data d = some data' ∧ some data'.ID = mongo.docID d := by
  simp only [readableDoc, Bool.and_eq_true] at h
  obtain ⟨hs, hd⟩ := h
  obtain ⟨id, rest, rfl, hall, -⟩ := (serviceDoc_iff d).1 hs
  simp only [List.all_cons, Bool.and_eq_true] at hd
  obtain ⟨data', hdec, -⟩ :=
    bsoncodec.DecodeValue_service rest hall hd.2 { data with ID := id }
  have hdec' : bsoncodec.DecodeValue data (("_id", bson.Value.objectID id) :: rest)
      = some data' := by
    simp only [bsoncodec.DecodeValue, fieldFor_id, bsoncodec.decodeField,
      bsoncodec.decodeObjectID, Option.map_some', hdec]
  exact ⟨data', hdec', DecodeValue_serviceDoc_ID _ hs data data' hdec'⟩

/-- What `$set` with the update literal does to a service document: it stays a
service document under the same identifier; with a payload whose rating is not
NaN it becomes readable and decodes to the payload. -/
theorem serviceDoc_applySet (id : primitive.ObjectID) (rest : bson.D)
    (hall : rest.all serviceElem = true) (hord : releaseOrder (rest.map Prod.fst) = true)
    (movie : Option moviepb.Movie) :
    mongo.applySet (("_id", bson.Value.objectID id) :: rest) (UpdateMovie.update movie)
      = ("_id", bson.Value.objectID id) :: mongo.applySet rest (UpdateMovie.update movie) ∧
    serviceDoc (mongo.applySet (("_id", bson.Value.objectID id) :: rest)
      (UpdateMovie.update movie)) = true ∧
    ((moviepb.GetRating movie).IsNaN = false →
      readableDoc (mongo.applySet (("_id", bson.Value.objectID id) :: rest)
        (UpdateMovie.update movie)) = true ∧
      bsoncodec.DecodeValue models.Movie.zero
        (mongo.applySet (("_id", bson.Value.objectID id) :: rest) (UpdateMovie.update movie))
        = some ⟨id, moviepb.GetTitle movie, moviepb.GetDescription movie,
            moviepb.GetReleaseDate movie, moviepb.GetDirector movie, moviepb.GetGenre movie,
            moviepb.GetRating movie, moviepb.GetRuntime movie, moviepb.GetPoster movie⟩) := by
  have hcons := mongo.applySet_cons_ne "_id" (bson.Value.objectID id) (UpdateMovie.update movie)
    (update_keys_ne movie "_id" (by decide)) rest
  have hsd : serviceDoc (mongo.applySet (("_id", bson.Value.objectID id) :: rest)
      (UpdateMovie.update movie)) = true := by
    rw [hcons, serviceDoc_iff]
    exact ⟨id, _, rfl, mongo.applySet_all_service _ (update_all_service movie) rest hall,
      mongo.applySet_releaseOrder _ (update_keys_ne movie "releasedate" (by decide)) rest hord⟩
  refine ⟨hcons, hsd, fun hnan => ⟨?_, ?_⟩⟩
  · simp only [readableDoc, hsd, Bool.true_and]
    rw [hcons, List.all_cons, Bool.and_eq_true]
    exact ⟨rfl, applySet_all_decodable rest hall movie hnan⟩
  · rw [hcons]
    simp only [bsoncodec.DecodeValue, fieldFor_id, bsoncodec.decodeField,
      bsoncodec.decodeObjectID, Option.map_some']
    exact DecodeValue_applySet rest hall hord movie hnan _

theorem Lookup_cons (k0 : String) (v0 : bson.Value) (d : bson.D) (k' : String) :
    bson.D.Lookup ((k0, v0) :: d) k' = if k0 = k' then some v0 else bson.D.Lookup d k' := rfl

theorem Lookup_map_ne (k k' : String) (v : bson.Value) (hne : k' ≠ k) (d : bson.D) :
    bson.D.Lookup (d.map (fun e => if e.1 = k then (k, v) else e)) k' = bson.D.Lookup d k' := by
  induction d with
  | nil => rfl
  | cons a t ih =>
    obtain ⟨ka, va⟩ := a
    by_cases ha : ka = k
    · have e1 : (if (ka, va).1 = k then (k, v) else (ka, va)) = (k, v) := if_pos ha
      rw [List.map_cons, e1, Lookup_cons, Lookup_cons, if_neg (fun h => hne h.symm),
        if_neg (fun h => hne (h.symm.trans ha)), ih]
    · have e1 : (if (ka, va).1 = k then (k, v) else (ka, va)) = (ka, va) := if_neg ha
      rw [List.map_cons, e1, Lookup_cons, Lookup_cons, ih]

theorem Lookup_append_ne (k k' : String) (v : bson.Value) (hne : k' ≠ k) (d : bson.D) :
    bson.D.Lookup (d ++ [(k, v)]) k' = bson.D.Lookup d k' := by
  induction d with
  | nil => rw [List.nil_append, Lookup_cons, if_neg (fun h => hne h.symm)]
  | cons a t ih =>
    obtain ⟨ka, va⟩ := a
    rw [List.cons_append, Lookup_cons, Lookup_cons, ih]

theorem Lookup_setField_ne (k k' : String) (v : bson.Value) (hne : k' ≠ k) (d : bson.D) :
    bson.D.Lookup (mongo.setField d k v) k' = bson.D.Lookup d k' := by
  unfold mongo.setField
  split
  · exact Lookup_map_ne k k' v hne d
  · exact Lookup_append_ne k k' v hne d

theorem Lookup_applySet_ne (k' : String) (u : bson.D) (hu : ∀ e ∈ u, e.1 ≠ k') :
    ∀ d : bson.D, bson.D.Lookup (mongo.applySet d u) k' = bson.D.Lookup d k' := by
  induction u with
  | nil => intro d; rfl
  | cons e u ih =>
    intro d
    simp only [mongo.applySet, List.foldl_cons]
    have h := ih (fun x hx => hu x (List.mem_cons_of_mem _ hx)) (mongo.setField d e.1 e.2)
    simp only [mongo.applySet] at h
    rw [h]
    exact Lookup_setField_ne e.1 k' e.2 (fun hk => hu e (List.mem_cons_self _ _) hk.symm) d

/-- The update writes the release date under `releaseDate`; the `releasedate`
element a document got when it was created stays in storage as it was. -/
theorem applySet_leaves_releasedate (d : bson.D) (movie : Option moviepb.Movie) :
    bson.D.Lookup (mongo.applySet d (UpdateMovie.update movie)) "releasedate"
      = bson.D.Lookup d "releasedate" :=
  Lookup_applySet_ne "releasedate" _ (update_keys_ne movie "releasedate" (by decide)) d

theorem updateFirst_none (oid : primitive.ObjectID) (u : bson.D) (db : mongo.Collection)
    (h : db.any (mongo.matchID oid) = false) : mongo.updateFirst oid u db = none := by
  induction db with
  | nil => rfl
  | cons d ds ih =>
    simp only [List.any_cons, Bool.or_eq_false_iff] at h
    simp only [mongo.updateFirst, h.1, Bool.false_eq_true, if_false, ih h.2]

theorem updateFirst_some (oid : primitive.ObjectID) (u : bson.D) (db : mongo.Collection)
    (h : db.any (mongo.matchID oid) = true) :
    ∃ pre d post, db = pre ++ d :: post ∧ (∀ x ∈ pre, mongo.matchID oid x = false) ∧
      mongo.matchID oid d = true ∧
      mongo.updateFirst oid u db = some (mongo.applySet d u, pre ++ mongo.applySet d u :: post) := by
  induction db with
  | nil => simp at h
  | cons d ds ih =>
    cases hd : mongo.matchID oid d with
    | true =>
      refine ⟨[], d, ds, rfl, by simp, hd, ?_⟩
      simp only [mongo.updateFirst, hd, if_true, List.nil_append]
    | false =>
      simp only [List.any_cons, hd, Bool.false_or] at h
      obtain ⟨pre, d', post, hdb, hpre, hm, hup⟩ := ih h
      refine ⟨d :: pre, d', post, by rw [hdb]; rfl, ?_, hm, ?_⟩
      · intro x hx
        rcases List.mem_cons.1 hx with hx | hx
        · rw [hx]; exact hd
        · exact hpre x hx
      · simp only [mongo.updateFirst, hd, Bool.false_eq_true, if_false, hup, List.cons_append]

theorem find?_skip (oid : primitive.ObjectID) (pre : mongo.Collection) (d : bson.D)
    (post : mongo.Collection) (hpre : ∀ x ∈ pre, mongo.matchID oid x = false)
    (hd : mongo.matchID oid d = true) :
    (pre ++ d :: post).find? (mongo.matchID oid) = some d := by
  induction pre with
  | nil => simp [List.find?, hd]
  | cons a pre ih =>
    simp only [List.cons_append, List.find?, hpre a (List.mem_cons_self _ _)]
    exact ih (fun x hx => hpre x (List.mem_cons_of_mem _ hx))

/-- C2, as amended: in a collection of documents as the service writes them,
`UpdateMovie` of a stored record with a payload whose rating is not NaN
succeeds, and `ReadMovie` of the same identifier afterwards returns the value of
the update payload in each of the eight fields besides the identifier. -/
theorem update_then_read (db : mongo.Collection) (hshape : ∀ d ∈ db, serviceDoc d = true)
    (movie : moviepb.Movie) (oid : primitive.ObjectID)
    (hid : primitive.ObjectIDFromHex movie.Id = some oid)
    (hstored : db.any (mongo.matchID oid) = true)
    (hnan : movie.Rating.IsNaN = false) :
    ∃ (res : moviepb.UpdateMovieRes) (db' : mongo.Collection) (rec : moviepb.ReadMovieRes),
      UpdateMovie db false ⟨some movie⟩ = (.ok res, db') ∧
      ReadMovie db' false ⟨movie.Id⟩ = .ok rec ∧
      rec.Movie.Title = movie.Title ∧ rec.Movie.Description = movie.Description ∧
      rec.Movie.ReleaseDate = movie.ReleaseDate ∧ rec.Movie.Director = movie.Director ∧
      rec.Movie.Genre = movie.Genre ∧ rec.Movie.Rating = movie.Rating ∧
      rec.Movie.Runtime = movie.Runtime ∧ rec.Movie.Poster = movie.Poster := by
  obtain ⟨pre, d, post, hdb, hpre, hm, hup⟩ :=
    updateFirst_some oid (UpdateMovie.update (some movie)) db hstored
  obtain ⟨id, rest, hd, hall, hord⟩ :=
    (serviceDoc_iff d).1 (hshape d (by rw [hdb]; simp))
  subst hd
  have hidoid : id = oid := by
    have h := (matchID_iff oid _).1 hm
    rw [bson.D.Lookup_cons_self] at h
    simpa using h
  subst hidoid
  obtain ⟨hcons, -, hrd⟩ := serviceDoc_applySet id rest hall hord (some movie)
  obtain ⟨-, hdec⟩ := hrd hnan
  have hm' : mongo.matchID id
      (mongo.applySet (("_id", bson.Value.objectID id) :: rest)
        (UpdateMovie.update (some movie))) = true := by
    rw [hcons, matchID_iff, bson.D.Lookup_cons_self]
  have hfind := find?_skip id pre _ post hpre hm'
  refine ⟨⟨⟨id.Hex, movie.Title, movie.Description, movie.ReleaseDate, movie.Director,
      movie.Genre, movie.Rating, movie.Runtime, movie.Poster⟩⟩,
    pre ++ mongo.applySet (("_id", bson.Value.objectID id) :: rest)
      (UpdateMovie.update (some movie)) :: post,
    ⟨⟨id.Hex, movie.Title, movie.Description, movie.ReleaseDate, movie.Director,
      movie.Genre, movie.Rating, movie.Runtime, movie.Poster⟩⟩, ?_, ?_,
    rfl, rfl, rfl, rfl, rfl, rfl, rfl, rfl⟩
  · simp only [UpdateMovie, moviepb.GetId, hid, mongo.FindOneAndUpdate, Bool.false_eq_true,
      if_false, hup, mongo.SingleResult.Decode, hdec]
    rfl
  · simp only [ReadMovie, hid, mongo.FindOne, Bool.false_eq_true, if_false, hfind,
      mongo.SingleResult.Decode, hdec]
    rfl

theorem update_then_read_witness :
    ∃ (res : moviepb.UpdateMovieRes) (db' : mongo.Collection) (rec : moviepb.ReadMovieRes),
      UpdateMovie Sample.movies false
        ⟨some { Sample.alien with Id := "010101010101010101010101", ReleaseDate := "1979" }⟩
        = (.ok res, db') ∧
      ReadMovie db' false ⟨"010101010101010101010101"⟩ = .ok rec ∧
      rec.Movie.Title = "Alien" ∧ rec.Movie.Description = "" ∧
      rec.Movie.ReleaseDate = "1979" ∧ rec.Movie.Director = "" ∧
      rec.Movie.Genre = "" ∧ rec.Movie.Rating = Float32.zero ∧
      rec.Movie.Runtime = 0 ∧ rec.Movie.Poster = "" :=
  update_then_read Sample.movies (by decide)
    { Sample.alien with Id := "010101010101010101010101", ReleaseDate := "1979" }
    Sample.oidA (by decide) (by decide) (by decide)

/-- C2 as stated fails for an update payload whose rating is NaN: the update is
applied to the stored record, but decoding the updated document fails, so
`UpdateMovie` returns not-found, and so does `ReadMovie` of the same identifier
afterwards. -/
theorem update_then_read_fails_for_nan :
    Sample.movies.any (mongo.matchID Sample.oidA) = true ∧
    (UpdateMovie Sample.movies false
      ⟨some { Sample.solaris with Id := "010101010101010101010101" }⟩).1
      = .error .NotFound ∧
    ((UpdateMovie Sample.movies false
      ⟨some { Sample.solaris with Id := "010101010101010101010101" }⟩).2.head?.bind
        (fun d => d.Lookup "rating"))
      = some (.double Sample.notANumber.toFloat64) ∧
    ReadMovie (UpdateMovie Sample.movies false
      ⟨some { Sample.solaris with Id := "010101010101010101010101" }⟩).2 false
      ⟨"010101010101010101010101"⟩ = .error .NotFound :=
  ⟨by decide, rfl, rfl, rfl⟩

/-- C8: `UpdateMovie` with a well-formed identifier leaves the identifiers of the
stored documents as they are, one by one in storage order. In a collection of
service documents a successful call answers with the identifier of the request
(in its lower-case rendering). When no document matches, the call returns
not-found and the collection is unchanged. -/
theorem update_preserves_identifiers (db : mongo.Collection) (fault : Bool)
    (req : moviepb.UpdateMovieReq) (oid : primitive.ObjectID)
    (hid : primitive.ObjectIDFromHex (moviepb.GetId req.Movie) = some oid) :
    mongo.ids (UpdateMovie db fault req).2 = mongo.ids db ∧
    ((∀ d ∈ db, serviceDoc d = true) → ∀ res, (UpdateMovie db fault req).1 = .ok res →
      res.Movie.Id = oid.Hex ∧
      primitive.ObjectIDFromHex res.Movie.Id
        = primitive.ObjectIDFromHex (moviepb.GetId req.Movie)) ∧
    (db.any (mongo.matchID oid) = false →
      UpdateMovie db fault req = (.error .NotFound, db)) := by
  cases fault with
  | true =>
    have hU : UpdateMovie db true req = (.error .NotFound, db) := by
      simp only [UpdateMovie, hid, mongo.FindOneAndUpdate, if_true, mongo.SingleResult.Decode]
    rw [hU]
    exact ⟨rfl, fun _ res h => by simp at h, fun _ => rfl⟩
  | false =>
    cases hany : db.any (mongo.matchID oid) with
    | false =>
      have hU : UpdateMovie db false req = (.error .NotFound, db) := by
        simp only [UpdateMovie, hid, mongo.FindOneAndUpdate, Bool.false_eq_true, if_false,
          updateFirst_none oid _ db hany, mongo.SingleResult.Decode]
      rw [hU]
      exact ⟨rfl, fun _ res h => by simp at h, fun _ => rfl⟩
    | true =>
      obtain ⟨pre, d, post, hdb, hpre, hm, hup⟩ :=
        updateFirst_some oid (UpdateMovie.update req.Movie) db hany
      have hlook : bson.D.Lookup (mongo.applySet d (UpdateMovie.update req.Movie)) "_id"
          = bson.D.Lookup d "_id" :=
        Lookup_applySet_ne "_id" _ (update_keys_ne req.Movie "_id" (by decide)) d
      have hids : mongo.ids (pre ++ mongo.applySet d (UpdateMovie.update req.Movie) :: post)
          = mongo.ids db := by
        rw [hdb]
        simp only [mongo.ids, List.map_append, List.map_cons, hlook]
      refine ⟨?_, ?_, fun h => by simp at h⟩
      · cases hdv : bsoncodec.DecodeValue models.Movie.zero
            (mongo.applySet d (UpdateMovie.update req.Movie)) with
        | none =>
          simp only [UpdateMovie, hid, mongo.FindOneAndUpdate, Bool.false_eq_true, if_false,
            hup, mongo.SingleResult.Decode, hdv]
          exact hids
        | some decoded =>
          simp only [UpdateMovie, hid, mongo.FindOneAndUpdate, Bool.false_eq_true, if_false,
            hup, mongo.SingleResult.Decode, hdv]
          exact hids
      · intro hshape res hres
        obtain ⟨id, rest, hd, hall, hord⟩ :=
          (serviceDoc_iff d).1 (hshape d (by rw [hdb]; simp))
        subst hd
        have hidoid : id = oid := by
          have h := (matchID_iff oid _).1 hm
          rw [bson.D.Lookup_cons_self] at h
          simpa using h
        subst hidoid
        obtain ⟨-, hsd, -⟩ := serviceDoc_applySet id rest hall hord req.Movie
        have hlookid : mongo.docID (mongo.applySet (("_id", bson.Value.objectID id) :: rest)
            (UpdateMovie.update req.Movie)) = some id := by
          simp only [mongo.docID, hlook, bson.D.Lookup_cons_self]
        cases hdv : bsoncodec.DecodeValue models.Movie.zero
            (mongo.applySet (("_id", bson.Value.objectID id) :: rest)
              (UpdateMovie.update req.Movie)) with
        | none =>
          simp [UpdateMovie, hid, mongo.FindOneAndUpdate, hup, mongo.SingleResult.Decode,
            hdv] at hres
        | some decoded =>
          have hdid := DecodeValue_serviceDoc_ID _ hsd _ decoded hdv
          rw [hlookid, Option.some.injEq] at hdid
          simp only [UpdateMovie, hid, mongo.FindOneAndUpdate, Bool.false_eq_true, if_false,
            hup, mongo.SingleResult.Decode, hdv, Except.ok.injEq] at hres
          subst hres
          refine ⟨?_, ?_⟩
          · show decoded.ID.Hex = id.Hex
            rw [hdid]
          · show primitive.ObjectIDFromHex decoded.ID.Hex = _
            rw [hdid, hid]
            exact primitive.ObjectIDFromHex_Hex id

theorem update_preserves_identifiers_witness :
    mongo.ids (UpdateMovie Sample.movies false
      ⟨some { Sample.dune with Id := "ABABABABABABABABABABABAB" }⟩).2 = mongo.ids Sample.movies ∧
    ((∀ d ∈ Sample.movies, serviceDoc d = true) → ∀ res,
      (UpdateMovie Sample.movies false
        ⟨some { Sample.dune with Id := "ABABABABABABABABABABABAB" }⟩).1 = .ok res →
      res.Movie.Id = "abababababababababababab" ∧
      primitive.ObjectIDFromHex res.Movie.Id
        = primitive.ObjectIDFromHex "ABABABABABABABABABABABAB") ∧
    (Sample.movies.any (mongo.matchID Sample.oidB) = false →
      UpdateMovie Sample.movies false
        ⟨some { Sample.dune with Id := "ABABABABABABABABABABABAB" }⟩
        = (.error .NotFound, Sample.movies)) :=
  update_preserves_identifiers Sample.movies false
    ⟨some { Sample.dune with Id := "ABABABABABABABABABABABAB" }⟩ Sample.oidB (by decide)

/-! ## Listing -/

theorem loop_service (send : Nat → Bool) (docs : List bson.D)
    (hshape : ∀ d ∈ docs, readableDoc d = true) :
    ∀ (data : models.Movie) (i : Nat),
      (ListMovies.loop send data i docs).1 = none ∧
      (ListMovies.loop send data i docs).2.map (fun x => some x.1.Movie.Id)
        = docs.map (fun d => (mongo.docID d).map primitive.ObjectID.Hex) := by
  induction docs with
  | nil => intro data i; exact ⟨rfl, rfl⟩
  | cons d docs ih =>
    intro data i
    obtain ⟨data', hdec, hid⟩ :=
      DecodeValue_readableDoc d (hshape d (List.mem_cons_self _ _)) data
    obtain ⟨h1, h2⟩ := ih (fun x hx => hshape x (List.mem_cons_of_mem _ hx)) data' (i + 1)
    simp only [ListMovies.loop, hdec, h1, List.map_cons, h2, ← hid, Option.map, listItem,
      and_self]

/-- C6, as amended: on a collection of N documents as the service writes them
from payloads whose rating is not NaN (documents the decoder accepts), and with
neither the query nor the cursor failing, `ListMovies` returns without error
after handing N messages to the stream, the i-th carrying the hexadecimal
identifier of the i-th stored document; on the empty collection nothing is sent
and no error is returned. -/
theorem list_streams_every_record (db : mongo.Collection)
    (hshape : ∀ d ∈ db, readableDoc d = true) (send : Nat → Bool) :
    (ListMovies db false none send).1 = .ok () ∧
    (ListMovies db false none send).2.length = db.length ∧
    (ListMovies db false none send).2.map (fun x => some x.1.Movie.Id)
      = db.map (fun d => (mongo.docID d).map primitive.ObjectID.Hex) ∧
    (db = [] → ListMovies db false none send = (.ok (), [])) := by
  obtain ⟨h1, h2⟩ := loop_service send db hshape models.Movie.zero 0
  have hL : ListMovies db false none send
      = (.ok (), (ListMovies.loop send models.Movie.zero 0 db).2) := by
    simp only [ListMovies, mongo.Find, Bool.false_eq_true, if_false]
    generalize ListMovies.loop send models.Movie.zero 0 db = r at h1
    obtain ⟨c, sent⟩ := r
    simp only at h1
    subst h1
    rfl
  rw [hL]
  refine ⟨rfl, ?_, h2, ?_⟩
  · have := congrArg List.length h2
    simpa using this
  · intro hdb
    subst hdb
    rfl

theorem list_streams_every_record_witness :
    (ListMovies Sample.movies false none (fun _ => true)).1 = .ok () ∧
    (ListMovies Sample.movies false none (fun _ => true)).2.length = 2 ∧
    (ListMovies Sample.movies false none (fun _ => true)).2.map (fun x => some x.1.Movie.Id)
      = [some "010101010101010101010101", some "abababababababababababab"] ∧
    (Sample.movies = [] → ListMovies Sample.movies false none (fun _ => true) = (.ok (), [])) :=
  list_streams_every_record Sample.movies (by decide) (fun _ => true)

/-- C6 as stated fails on a collection holding a record the service stored from
a payload whose rating is NaN: with no failure of the query or the cursor,
`ListMovies` returns unavailable and hands nothing to the stream, although the
collection holds one record. -/
theorem list_fails_for_nan :
    (CreateMovie [] false Sample.oidA ⟨some Sample.solaris⟩).1
      = .ok ⟨{ Sample.solaris with Id := "010101010101010101010101" }⟩ ∧
    (CreateMovie [] false Sample.oidA ⟨some Sample.solaris⟩).2.length = 1 ∧
    ListMovies (CreateMovie [] false Sample.oidA ⟨some Sample.solaris⟩).2 false none
      (fun _ => true) = (.error .Unavailable, []) :=
  ⟨rfl, rfl, rfl⟩

/-- C9: the three failure statuses of `ListMovies` are as stated, but a failed
send is swallowed. On a collection of two documents with every send failing,
`ListMovies` still returns success, although no message reached the consumer. -/
theorem list_ignores_failed_send :
    (ListMovies Sample.movies false none (fun _ => false)).1 = .ok () ∧
    (ListMovies Sample.movies false none (fun _ => false)).2.map Prod.snd = [false, false] :=
  ⟨rfl, rfl⟩

/-- C10: `ListMovies` decodes into one buffer that is never cleared. After
`CreateMovie` of a record with a description and of a record without one, the
second listed message carries the description of the first, while `ReadMovie`
of the second identifier returns an empty description. -/
theorem list_item_keeps_stale_field :
    (CreateMovie (CreateMovie [] false Sample.oidA ⟨some Sample.dune⟩).2 false Sample.oidB
      ⟨some Sample.alien⟩).2 = Sample.movies ∧
    (ListMovies Sample.movies false none (fun _ => true)).2.map
      (fun x => (x.1.Movie.Id, x.1.Movie.Title, x.1.Movie.Description))
      = [("010101010101010101010101", "Dune", "Sand and spice"),
         ("abababababababababababab", "Alien", "Sand and spice")] ∧
    (ReadMovie Sample.movies false ⟨"abababababababababababab"⟩).toOption.map
      (fun r => (r.Movie.Id, r.Movie.Title, r.Movie.Description))
      = some ("abababababababababababab", "Alien", "") :=
  ⟨rfl, rfl, rfl⟩

/-! ## The handlers keep the collection in shape -/

theorem mem_omitempty {α : Type} (c : Prop) [Decidable c] (x e : α)
    (h : e ∈ (if c then [] else [x])) : e = x := by
  split at h
  · simp at h
  · exact List.mem_singleton.1 h

theorem releaseOrder_of_not_mem (ks : List String) (h : "releaseDate" ∉ ks) :
    releaseOrder ks = true := by
  induction ks with
  | nil => rfl
  | cons k ks ih =>
    simp only [List.mem_cons, not_or] at h
    simp only [releaseOrder, Bool.and_eq_true, Bool.or_eq_true, decide_eq_true_eq]
    exact ⟨Or.inl (fun hk => h.1 hk.symm), ih h.2⟩

theorem EncodeValue_elems (data : models.Movie) (hz : data.ID = primitive.NilObjectID) :
    ∀ e ∈ bsoncodec.EncodeValue data, serviceElem e = true ∧ e.1 ≠ "releaseDate" := by
  intro e he
  have hzero : data.ID.IsZero = true := by rw [hz]; decide
  simp only [bsoncodec.EncodeValue, hzero, if_true, List.nil_append, List.mem_append] at he
  rcases he with (((((((he | he) | he) | he) | he) | he) | he) | he) <;>
    (rw [mem_omitempty _ _ _ he]; exact ⟨by simp [serviceElem], by simp only []; decide⟩)

/-- The document `CreateMovie` stores is a service document. -/
theorem serviceDoc_created (newID : primitive.ObjectID) (data : models.Movie)
    (hz : data.ID = primitive.NilObjectID) :
    serviceDoc (("_id", bson.Value.objectID newID) :: bsoncodec.EncodeValue data) = true := by
  rw [serviceDoc_iff]
  refine ⟨newID, _, rfl, ?_, ?_⟩
  · rw [List.all_eq_true]
    exact fun e he => (EncodeValue_elems data hz e he).1
  · apply releaseOrder_of_not_mem
    intro hmem
    obtain ⟨e, he, hek⟩ := List.mem_map.1 hmem
    exact (EncodeValue_elems data hz e he).2 hek

/-- What `UpdateMovie` does to the collection: nothing, or the `$set` on the first
document under the identifier of the request. -/
theorem UpdateMovie_collection (db : mongo.Collection) (fault : Bool)
    (req : moviepb.UpdateMovieReq) :
    (UpdateMovie db fault req).2 = db ∨
    ∃ pre d post, db = pre ++ d :: post ∧
      (UpdateMovie db fault req).2
        = pre ++ mongo.applySet d (UpdateMovie.update req.Movie) :: post := by
  cases hid : primitive.ObjectIDFromHex (moviepb.GetId req.Movie) with
  | none => left; simp only [UpdateMovie, hid]
  | some oid =>
    cases fault with
    | true =>
      left
      simp only [UpdateMovie, hid, mongo.FindOneAndUpdate, if_true, mongo.SingleResult.Decode]
    | false =>
      cases hany : db.any (mongo.matchID oid) with
      | false =>
        left
        simp only [UpdateMovie, hid, mongo.FindOneAndUpdate, Bool.false_eq_true, if_false,
          updateFirst_none oid _ db hany, mongo.SingleResult.Decode]
      | true =>
        right
        obtain ⟨pre, d, post, hdb, -, -, hup⟩ :=
          updateFirst_some oid (UpdateMovie.update req.Movie) db hany
        refine ⟨pre, d, post, hdb, ?_⟩
        cases hdv : bsoncodec.DecodeValue models.Movie.zero
            (mongo.applySet d (UpdateMovie.update req.Movie)) with
        | none =>
          simp only [UpdateMovie, hid, mongo.FindOneAndUpdate, Bool.false_eq_true, if_false,
            hup, mongo.SingleResult.Decode, hdv]
        | some decoded =>
          simp only [UpdateMovie, hid, mongo.FindOneAndUpdate, Bool.false_eq_true, if_false,
            hup, mongo.SingleResult.Decode, hdv]

/-- What `DeleteMovie` does to the collection: nothing, or the removal of the
first document under the identifier of the request. -/
theorem DeleteMovie_collection (db : mongo.Collection) (fault : Bool)
    (req : moviepb.DeleteMovieReq) :
    (DeleteMovie db fault req).2 = db ∨
    ∃ oid, (DeleteMovie db fault req).2 = db.eraseP (mongo.matchID oid) := by
  cases hid : primitive.ObjectIDFromHex req.Id with
  | none => left; simp only [DeleteMovie, hid]
  | some oid =>
    cases fault with
    | true => left; simp only [DeleteMovie, hid, mongo.DeleteOne, if_true]
    | false =>
      right
      exact ⟨oid, by simp only [DeleteMovie, hid, mongo.DeleteOne, Bool.false_eq_true, if_false]⟩

/-- What `CreateMovie` does to the collection: nothing, or one more document,
under an identifier that was not in the collection. -/
theorem CreateMovie_collection (db : mongo.Collection) (fault : Bool)
    (newID : primitive.ObjectID) (req : moviepb.CreateMovieReq) :
    (CreateMovie db fault newID req).2 = db ∨
    ∃ data : models.Movie, data.ID = primitive.NilObjectID ∧
      data.Rating = moviepb.GetRating req.Movie ∧
      db.any (mongo.matchID newID) = false ∧
      (CreateMovie db fault newID req).2
        = db ++ [("_id", bson.Value.objectID newID) :: bsoncodec.EncodeValue data] := by
  have hz : primitive.NilObjectID.IsZero = true := by decide
  obtain ⟨m⟩ := req
  cases m with
  | none => left; rfl
  | some movie =>
    cases fault with
    | true => left; simp [CreateMovie, mongo.InsertOne]
    | false =>
      cases hany : db.any (mongo.matchID newID) with
      | true => left; simp [CreateMovie, mongo.InsertOne, hz, hany]
      | false =>
        right
        refine ⟨⟨primitive.NilObjectID, movie.Title, movie.Description, movie.ReleaseDate,
          movie.Director, movie.Genre, movie.Rating, movie.Runtime, movie.Poster⟩, rfl, rfl,
          rfl, ?_⟩
        simp only [CreateMovie, mongo.InsertOne, hz, hany, if_true, Bool.false_eq_true,
          if_false]

/-- Every handler that changes the collection leaves a collection of service
documents a collection of service documents. -/
theorem handlers_keep_serviceDoc (db : mongo.Collection)
    (hshape : ∀ d ∈ db, serviceDoc d = true) :
    (∀ fault newID req, ∀ d ∈ (CreateMovie db fault newID req).2, serviceDoc d = true) ∧
    (∀ fault req, ∀ d ∈ (UpdateMovie db fault req).2, serviceDoc d = true) ∧
    (∀ fault req, ∀ d ∈ (DeleteMovie db fault req).2, serviceDoc d = true) := by
  refine ⟨?_, ?_, ?_⟩
  · intro fault newID req d hd
    rcases CreateMovie_collection db fault newID req with h | ⟨data, hz, -, -, h⟩
    · rw [h] at hd; exact hshape d hd
    · rw [h] at hd
      rcases List.mem_append.1 hd with hd | hd
      · exact hshape d hd
      · rw [List.mem_singleton.1 hd]
        exact serviceDoc_created newID data hz
  · intro fault req d hd
    rcases UpdateMovie_collection db fault req with h | ⟨pre, d0, post, hdb, h⟩
    · rw [h] at hd; exact hshape d hd
    · rw [h] at hd
      rcases List.mem_append.1 hd with hd | hd
      · exact hshape d (by rw [hdb]; exact List.mem_append_left _ hd)
      · rcases List.mem_cons.1 hd with hd | hd
        · obtain ⟨id, rest, hd0, hall, hord⟩ :=
            (serviceDoc_iff d0).1 (hshape d0 (by rw [hdb]; simp))
          rw [hd, hd0]
          exact (serviceDoc_applySet id rest hall hord req.Movie).2.1
        · exact hshape d (by rw [hdb]; simp [hd])
  · intro fault req d hd
    rcases DeleteMovie_collection db fault req with h | ⟨oid, h⟩
    · rw [h] at hd; exact hshape d hd
    · rw [h] at hd
      exact hshape d (List.mem_of_mem_eraseP hd)

theorem EncodeValue_decodable (data : models.Movie) (hnan : data.Rating.IsNaN = false) :
    (bsoncodec.EncodeValue data).all decodableElem = true := by
  rw [List.all_eq_true]
  intro e he
  simp only [bsoncodec.EncodeValue, List.mem_append] at he
  rcases he with ((((((((he | he) | he) | he) | he) | he) | he) | he) | he) <;>
    rw [mem_omitempty _ _ _ he]
  all_goals first
    | rfl
    | simp only [decodableElem, bsoncodec.toFloat32?_toFloat64 _ hnan, Option.isSome_some]

/-- The handlers keep a collection of readable documents readable, as long as
no payload has the rating NaN. -/
theorem handlers_keep_readableDoc (db : mongo.Collection)
    (hshape : ∀ d ∈ db, readableDoc d = true) :
    (∀ fault newID req, (moviepb.GetRating req.Movie).IsNaN = false →
      ∀ d ∈ (CreateMovie db fault newID req).2, readableDoc d = true) ∧
    (∀ fault req, (moviepb.GetRating req.Movie).IsNaN = false →
      ∀ d ∈ (UpdateMovie db fault req).2, readableDoc d = true) ∧
    (∀ fault req, ∀ d ∈ (DeleteMovie db fault req).2, readableDoc d = true) := by
  refine ⟨?_, ?_, ?_⟩
  · intro fault newID req hnan d hd
    rcases CreateMovie_collection db fault newID req with h | ⟨data, hz, hr, -, h⟩
    · rw [h] at hd; exact hshape d hd
    · rw [h] at hd
      rcases List.mem_append.1 hd with hd | hd
      · exact hshape d hd
      · rw [List.mem_singleton.1 hd]
        simp only [readableDoc, serviceDoc_created newID data hz, Bool.true_and, List.all_cons,
          Bool.and_eq_true]
        exact ⟨rfl, EncodeValue_decodable data (by rw [hr]; exact hnan)⟩
  · intro fault req hnan d hd
    rcases UpdateMovie_collection db fault req with h | ⟨pre, d0, post, hdb, h⟩
    · rw [h] at hd; exact hshape d hd
    · rw [h] at hd
      rcases List.mem_append.1 hd with hd | hd
      · exact hshape d (by rw [hdb]; exact List.mem_append_left _ hd)
      · rcases List.mem_cons.1 hd with hd | hd
        · have hd0 := hshape d0 (by rw [hdb]; simp)
          simp only [readableDoc, Bool.and_eq_true] at hd0
          obtain ⟨id, rest, hd0e, hall, hord⟩ := (serviceDoc_iff d0).1 hd0.1
          rw [hd, hd0e]
          exact ((serviceDoc_applySet id rest hall hord req.Movie).2.2 hnan).1
        · exact hshape d (by rw [hdb]; simp [hd])
  · intro fault req d hd
    rcases DeleteMovie_collection db fault req with h | ⟨oid, h⟩
    · rw [h] at hd; exact hshape d hd
    · rw [h] at hd
      exact hshape d (List.mem_of_mem_eraseP hd)

/-- Every handler that changes the collection keeps the stored identifiers
pairwise different. -/
theorem handlers_keep_unique_ids (db : mongo.Collection) (huniq : (mongo.ids db).Nodup) :
    (∀ fault newID req, (mongo.ids (CreateMovie db fault newID req).2).Nodup) ∧
    (∀ fault req, (mongo.ids (UpdateMovie db fault req).2).Nodup) ∧
    (∀ fault req, (mongo.ids (DeleteMovie db fault req).2).Nodup) := by
  refine ⟨?_, ?_, ?_⟩
  · intro fault newID req
    rcases CreateMovie_collection db fault newID req with h | ⟨data, -, -, hnew, h⟩
    · rw [h]; exact huniq
    · rw [h]
      simp only [mongo.ids, List.map_append, List.map_cons, List.map_nil,
        bson.D.Lookup_cons_self]
      apply List.Nodup.append huniq (List.nodup_singleton _)
      intro a ha hb
      rw [List.mem_singleton.1 hb] at ha
      obtain ⟨d, hd, hdk⟩ := List.mem_map.1 ha
      have hmatch : mongo.matchID newID d = true := (matchID_iff newID d).2 hdk
      have hall := List.any_eq_false.1 hnew d hd
      exact hall hmatch
  · intro fault req
    rcases UpdateMovie_collection db fault req with h | ⟨pre, d0, post, hdb, h⟩
    · rw [h]; exact huniq
    · rw [h]
      have hlook := Lookup_applySet_ne "_id" _ (update_keys_ne req.Movie "_id" (by decide)) d0
      rw [hdb] at huniq
      simpa only [mongo.ids, List.map_append, List.map_cons, hlook] using huniq
  · intro fault req
    rcases DeleteMovie_collection db fault req with h | ⟨oid, h⟩
    · rw [h]; exact huniq
    · rw [h]
      exact List.Nodup.sublist (List.Sublist.map _ (List.eraseP_sublist db)) huniq

/-! ## Which identifier strings decode -/

namespace hex

theorem fromHexChar_some (c : Char) (n : Nat) (h : fromHexChar c = some n) :
    n < 16 ∧ c.utf8Size = 1 := by
  unfold fromHexChar at h
  have hsz : c.toNat ≤ 127 → c.utf8Size = 1 := by
    intro hle
    unfold Char.utf8Size
    rw [if_pos]
    show c.val.toNat ≤ 127
    exact hle
  split_ifs at h with h1 h2 h3
  · simp only [Option.some.injEq] at h
    exact ⟨by omega, hsz (by omega)⟩
  · simp only [Option.some.injEq] at h
    exact ⟨by omega, hsz (by omega)⟩
  · simp only [Option.some.injEq] at h
    exact ⟨by omega, hsz (by omega)⟩

theorem utf8ByteSize_of_hex :
    ∀ l : List Char, (∀ c ∈ l, fromHexChar c ≠ none) → String.utf8ByteSize.go l = l.length
  | [], _ => rfl
  | c :: l, h => by
    have hc := h c (List.mem_cons_self _ _)
    cases hn : fromHexChar c with
    | none => exact absurd hn hc
    | some n =>
      simp only [String.utf8ByteSize.go, (fromHexChar_some c n hn).2, List.length_cons,
        utf8ByteSize_of_hex l (fun x hx => h x (List.mem_cons_of_mem _ hx))]

theorem Decode_of_hex :
    ∀ (n : Nat) (l : List Char), l.length = 2 * n → (∀ c ∈ l, fromHexChar c ≠ none) →
      ∃ bs, Decode l = some bs ∧ bs.length = n
  | 0, [], _, _ => ⟨[], rfl, rfl⟩
  | 0, _ :: _, hlen, _ => by simp at hlen
  | n + 1, [], hlen, _ => by simp at hlen
  | n + 1, [_], hlen, _ => by simp at hlen; omega
  | n + 1, a :: b :: rest, hlen, h => by
    have hrest : rest.length = 2 * n := by simp at hlen; omega
    obtain ⟨bs, hbs, hl⟩ := Decode_of_hex n rest hrest
      (fun x hx => h x (List.mem_cons_of_mem _ (List.mem_cons_of_mem _ hx)))
    have ha := h a (List.mem_cons_self _ _)
    have hb := h b (List.mem_cons_of_mem _ (List.mem_cons_self _ _))
    cases hna : fromHexChar a with
    | none => exact absurd hna ha
    | some hi =>
      cases hnb : fromHexChar b with
      | none => exact absurd hnb hb
      | some lo =>
        exact ⟨Fin.ofNat (hi * 16 + lo) :: bs, by simp only [Decode, hna, hnb, hbs],
          by simp [hl]⟩

end hex

/-- An identifier string decodes exactly when it is 24 bytes long and all its
characters are hexadecimal digits. -/
theorem ObjectIDFromHex_eq_none_iff (s : String) :
    primitive.ObjectIDFromHex s = none ↔
      (s.utf8ByteSize ≠ 24 ∨ ∃ c ∈ s.data, hex.fromHexChar c = none) := by
  constructor
  · intro h
    by_contra hcon
    simp only [not_or, not_not, not_exists, not_and] at hcon
    obtain ⟨hsize, hall⟩ := hcon
    have hlen : s.data.length = 2 * 12 := by
      rw [← hex.utf8ByteSize_of_hex s.data hall]
      exact hsize
    obtain ⟨bs, hbs, hl⟩ := hex.Decode_of_hex 12 s.data hlen hall
    simp [primitive.ObjectIDFromHex, hsize, hbs, hl] at h
  · exact primitive.ObjectIDFromHex_eq_none s

/-! ## Statuses of the listing -/

theorem loop_stops_at_undecodable (send : Nat → Bool) (d : bson.D) (post : List bson.D)
    (hd : ∀ b, bsoncodec.DecodeValue b d = none) (pre : List bson.D)
    (hpre : ∀ x ∈ pre, readableDoc x = true) :
    ∀ (data : models.Movie) (i : Nat),
      (ListMovies.loop send data i (pre ++ d :: post)).1 = some codes.Unavailable ∧
      (ListMovies.loop send data i (pre ++ d :: post)).2.length = pre.length := by
  induction pre with
  | nil =>
    intro data i
    simp only [List.nil_append, ListMovies.loop, hd data, List.length_nil, and_self]
  | cons a pre ih =>
    intro data i
    obtain ⟨data', hdec, -⟩ := DecodeValue_readableDoc a (hpre a (List.mem_cons_self _ _)) data
    obtain ⟨h1, h2⟩ := ih (fun x hx => hpre x (List.mem_cons_of_mem _ hx)) data' (i + 1)
    simp only [List.cons_append, ListMovies.loop, hdec, List.length_cons]
    exact ⟨h1, congrArg (· + 1) h2⟩

/-- The failure statuses of `ListMovies`: internal with nothing sent when the
query fails; unavailable, after the messages for the documents before it, when a
document does not decode; internal when the cursor breaks after readable
documents. -/
theorem ListMovies_failures (send : Nat → Bool) :
    (∀ db failAt, ListMovies db true failAt send = (.error .Internal, [])) ∧
    (∀ pre d post, (∀ x ∈ pre, readableDoc x = true) → (∀ b, bsoncodec.DecodeValue b d = none) →
      (ListMovies (pre ++ d :: post) false none send).1 = .error .Unavailable ∧
      (ListMovies (pre ++ d :: post) false none send).2.length = pre.length) ∧
    (∀ db k, (∀ x ∈ db, readableDoc x = true) →
      (ListMovies db false (some k) send).1 = .error .Internal) := by
  refine ⟨fun db failAt => rfl, ?_, ?_⟩
  · intro pre d post hpre hd
    obtain ⟨h1, h2⟩ := loop_stops_at_undecodable send d post hd pre hpre models.Movie.zero 0
    simp only [ListMovies, mongo.Find, Bool.false_eq_true, if_false]
    generalize ListMovies.loop send models.Movie.zero 0 (pre ++ d :: post) = r at h1 h2
    obtain ⟨c, sent⟩ := r
    simp only at h1 h2
    subst h1
    exact ⟨rfl, h2⟩
  · intro db k hdb
    obtain ⟨h1, -⟩ := loop_service send (db.take k)
      (fun x hx => hdb x (List.mem_of_mem_take hx)) models.Movie.zero 0
    simp only [ListMovies, mongo.Find, Bool.false_eq_true, if_false]
    generalize ListMovies.loop send models.Movie.zero 0 (db.take k) = r at h1
    obtain ⟨c, sent⟩ := r
    simp only at h1
    subst h1
    rfl
